import Mathlib

/-!
Role-based access rules (`internal/rules/resources.go`).

A shallow embedding of the `resources` type of package `rules`: the resolver
`IsAllowed` (with its two query forms `checkAccess` and `checkAccessMulti`) and
the grant manager (`GrantByResource`, `Grant`, `Delete`), over an explicit model
of the two tables the SQL text of the source touches, `sys_rules` and
`sys_role_member`.

The database handle is state that is passed explicitly: every function that
sends a statement returns the handle it leaves behind next to its result. The
handle carries the outcome of the statements to come, so that any statement may
fail. The `=` of the SQL text on strings is equality of the strings, role and
user ids are natural numbers (the source has `uint64` and does no arithmetic on
them), and the rows of a query come in the order of `sys_rules`.
-/

namespace rules

/-! ## Data model -/

/-- Modelled from the spec: the declaration of the type `Access` and of its
constants `Deny`, `Allow`, `Inherit` is not part of `resources.go`; the spec
gives it as a tri-state value. -/
inductive Access where
  | Deny
  | Allow
  | Inherit
deriving DecidableEq, Repr

/-- Modelled from the spec: the declaration of the struct `Rule` is not part of
`resources.go`; the fields are the ones the source reads and writes (`RoleID`,
`Resource`, `Operation`, `Value`), bound to the columns `rel_role`, `resource`,
`operation`, `value` of `sys_rules`. -/
structure Rule where
  RoleID : Nat
  Resource : String
  Operation : String
  Value : Access
deriving DecidableEq, Repr

/-- A row of `sys_role_member`, the table the two resolver queries join with:
the user `rel_user` is a member of the role `rel_role`. -/
structure RoleMember where
  rel_role : Nat
  rel_user : Nat
deriving DecidableEq, Repr

/-- A Go `error` value, identified by its message. -/
abbrev Error := String

/-- The database handle `*factory.DB` as far as `resources.go` uses it: the two
tables, and `faults`, the outcome of the statements still to come, one entry per
statement in the order they are sent (`some e`: the statement fails with `e`;
`none`, or no entry left: it is carried out). -/
structure DB where
  sys_rules : List Rule
  sys_role_member : List RoleMember
  faults : List (Option Error)
deriving DecidableEq, Repr

/-- The request context, as far as `resources.go` uses it: the identity that
`auth.GetIdentityFromContext(ctx).Identity()` yields. -/
structure Context where
  identity : Nat
deriving DecidableEq, Repr

/-- The receiver `resources` of the source: `ctx` and `db`. -/
structure resources where
  ctx : Context
  db : DB
deriving DecidableEq, Repr

/-! ## The database statements of the source -/

/-- Sending one statement: the next entry of `faults` decides whether it fails,
and is used up. -/
def DB.exec (db : DB) : Option Error × DB :=
  match db.faults with
  | [] => (none, db)
  | f :: fs => (f, { db with faults := fs })

/-- The SQL predicate `s LIKE pattern` on character lists: `%` stands for any
run of characters, `_` for any one character, a backslash takes the character
after it literally, every other character stands for itself. -/
def sqlLike : List Char → List Char → Bool
  | [], s => s.isEmpty
  | c :: p, s =>
    if c = '%' then s.tails.any (fun t => sqlLike p t)
    else if c = '_' then
      match s with
      | [] => false
      | _ :: t => sqlLike p t
    else if c = '\\' then
      match p, s with
      | [], [d] => d = '\\'
      | [], _ => false
      | _ :: _, [] => false
      | e :: q, d :: t => d = e && sqlLike q t
    else
      match s with
      | [] => false
      | d :: t => d = c && sqlLike p t

/-- The rows of `sys_rules r inner join sys_role_member m on (m.rel_role =
r.rel_role and m.rel_user = user)`: one copy of the rule per membership row of
`user` in the rule's role. -/
def DB.joinMembers (db : DB) (user : Nat) : List Rule :=
  db.sys_rules.flatMap fun r =>
    (db.sys_role_member.filter fun m => m.rel_role = r.RoleID ∧ m.rel_user = user).map fun _ => r

/-- The statement `db.Select(&result, "select r.value from sys_rules r inner join
sys_role_member m on (m.rel_role = r.rel_role and m.rel_user=?) where ...", user,
...)`; `cond` is the `where` clause with its arguments filled in. -/
def DB.Select (db : DB) (user : Nat) (cond : Rule → Bool) : Except Error (List Access) × DB :=
  match db.exec with
  | (some e, db') => (Except.error e, db')
  | (none, db') => (Except.ok (((db.joinMembers user).filter cond).map Rule.Value), db')

/-- The clause `where r.resource=? and r.operation=?` of `checkAccess`. -/
def whereEq (resource operation : String) (x : Rule) : Bool :=
  x.Resource = resource && x.Operation = operation

/-- The clause `where r.resource LIKE ? and r.operation=?` of `checkAccessMulti`. -/
def whereLike (resource operation : String) (x : Rule) : Bool :=
  sqlLike resource.data x.Resource.data && x.Operation = operation

/-- The call `strings.Contains(resource, "*")`. -/
def containsStar (resource : String) : Bool :=
  resource.data.contains '*'

/-- The call `strings.Replace(resource, "*", "%", -1)`. -/
def replaceStar (resource : String) : String :=
  String.mk (resource.data.map fun c => if c = '*' then '%' else c)

/-! ## The resolver -/

/-- Method `(r *resources) identity()`. -/
def resources.identity (r : resources) : Nat :=
  r.ctx.identity

/-- The two loops that follow the query in `checkAccess` and `checkAccessMulti`
(`// order by deny, allow`). -/
def foldAccess (result : List Access) : Access :=
  if result.any (fun val => val = Access.Deny) then Access.Deny
  else if result.any (fun val => val = Access.Allow) then Access.Allow
  else Access.Inherit

/-- Method `(r *resources) checkAccessMulti(resource, operation)`: the query with
`where r.resource LIKE ? and r.operation=?`, after `*` became `%`. -/
def resources.checkAccessMulti (r : resources) (resource operation : String) : Access × DB :=
  let user := r.identity
  let resource := replaceStar resource
  match r.db.Select user (whereLike resource operation) with
  | (Except.error _, db') => (Access.Deny, db')
  | (Except.ok result, db') => (foldAccess result, db')

/-- Method `(r *resources) checkAccess(resource, operation)`: the query with
`where r.resource=? and r.operation=?`. -/
def resources.checkAccess (r : resources) (resource operation : String) : Access × DB :=
  let user := r.identity
  match r.db.Select user (whereEq resource operation) with
  | (Except.error _, db') => (Access.Deny, db')
  | (Except.ok result, db') => (foldAccess result, db')

/-- Method `(r *resources) IsAllowed(resource, operation)`. -/
def resources.IsAllowed (r : resources) (resource operation : String) : Access × DB :=
  if containsStar resource then r.checkAccessMulti resource operation
  else r.checkAccess resource operation

/-! ## The grant manager -/

/-- The key columns of `sys_rules`: `rel_role`, `resource`, `operation`. -/
def Rule.sameKey (a b : Rule) : Bool :=
  a.RoleID = b.RoleID && a.Resource = b.Resource && a.Operation = b.Operation

/-- The statement `db.NamedExec("delete from sys_rules where rel_role=:rel_role
and resource=:resource and operation=:operation", row)`. -/
def DB.NamedExec (db : DB) (row : Rule) : Option Error × DB :=
  match db.exec with
  | (some e, db') => (some e, db')
  | (none, db') => (none, { db' with sys_rules := db'.sys_rules.filter fun x => !x.sameKey row })

/-- Modelled from the spec: the definition of the table `sys_rules` is not among
the sources; the spec gives `(Role, Resource, Operation)` as its unique key. The
statement `db.Replace("sys_rules", row)`, SQL `replace into sys_rules`: the row
that holds the key of `row`, if any, is deleted and `row` is inserted. -/
def DB.Replace (db : DB) (row : Rule) : Option Error × DB :=
  match db.exec with
  | (some e, db') => (some e, db')
  | (none, db') =>
    (none, { db' with sys_rules := (db'.sys_rules.filter fun x => !x.sameKey row) ++ [row] })

/-- The statement `db.Exec("delete from sys_rules where rel_role = ?", roleID)`. -/
def DB.Exec (db : DB) (roleID : Nat) : Option Error × DB :=
  match db.exec with
  | (some e, db') => (some e, db')
  | (none, db') => (none, { db' with sys_rules := db'.sys_rules.filter fun x => x.RoleID ≠ roleID })

/-- Modelled from the spec: `Transaction` belongs to the database library, which
is not among the sources; the spec has all writes of a call in one transaction,
rolled back on a write error, which is returned unchanged. The call
`db.Transaction(callback)`: the callback runs on the handle; when it returns an
error the tables are put back to what they were and the error is returned as it
is, otherwise the changes of the callback stay. -/
def DB.Transaction (db : DB) (callback : DB → Option Error × DB) : Option Error × DB :=
  match callback db with
  | (some e, db') =>
    (some e, { db' with sys_rules := db.sys_rules, sys_role_member := db.sys_role_member })
  | (none, db') => (none, db')

/-- The loop `for _, operation := range operations` in `GrantByResource`; `row`
is the loop-carried variable of the source. -/
def resources.GrantByResource.loop (value : Access) (row : Rule) :
    List String → DB → Option Error × DB
  | [], db => (none, db)
  | operation :: operations, db =>
    let row := { row with Operation := operation }
    let step :=
      match value with
      | Access.Inherit => db.NamedExec row
      | _ => db.Replace row
    match step with
    | (some err, db') => (some err, db')
    | (none, db') => resources.GrantByResource.loop value row operations db'

/-- Method `(r *resources) GrantByResource(roleID, resource, operations, value)`. -/
def resources.GrantByResource (r : resources) (roleID : Nat) (resource : String)
    (operations : List String) (value : Access) : Option Error × DB :=
  r.db.Transaction fun db =>
    let row : Rule := { RoleID := roleID, Resource := resource, Operation := "", Value := value }
    resources.GrantByResource.loop value row operations db

/-- The loop `for _, rule := range rules` in `Grant`. -/
def resources.Grant.loop (roleID : Nat) : List Rule → DB → Option Error × DB
  | [], db => (none, db)
  | rule :: rules, db =>
    let rule := { rule with RoleID := roleID }
    let step :=
      match rule.Value with
      | Access.Inherit => db.NamedExec rule
      | _ => db.Replace rule
    match step with
    | (some err, db') => (some err, db')
    | (none, db') => resources.Grant.loop roleID rules db'

/-- Method `(r *resources) Grant(roleID, rules)`. -/
def resources.Grant (r : resources) (roleID : Nat) (rules : List Rule) : Option Error × DB :=
  r.db.Transaction fun db => resources.Grant.loop roleID rules db

/-- Method `(r *resources) Delete(roleID)`. -/
def resources.Delete (r : resources) (roleID : Nat) : Option Error × DB :=
  match r.db.Exec roleID with
  | (some err, db') => (some err, db')
  | (none, db') => (none, db')

/-! ## The table after one write -/

/-- The rows of `sys_rules` after the write that one round of the loop of `Grant`
sends for `rule` has been carried out: the `delete` statement for an `Inherit`
rule, the `replace` statement for any other, both under the role `roleID`. -/
def applyRule (roleID : Nat) (rule : Rule) (rows : List Rule) : List Rule :=
  match rule.Value with
  | Access.Inherit => rows.filter fun x => !x.sameKey { rule with RoleID := roleID }
  | _ => (rows.filter fun x => !x.sameKey { rule with RoleID := roleID })
           ++ [{ rule with RoleID := roleID }]

/-! ## Sample stores -/

/-- The scenario of the spec: user `7` is a member of the roles `10` and `11`;
role `10` is allowed and role `11` is denied `read` on `compose:record:42`. -/
def scenarioDeny : resources :=
  { ctx := { identity := 7 },
    db := { sys_rules := [⟨10, "compose:record:42", "read", Access.Allow⟩,
                          ⟨11, "compose:record:42", "read", Access.Deny⟩],
            sys_role_member := [⟨10, 7⟩, ⟨11, 7⟩],
            faults := [] } }

/-- The first half of the scenario of the spec: only the `Allow` rule of role
`10` is stored. -/
def scenarioAllow : resources :=
  { ctx := { identity := 7 },
    db := { sys_rules := [⟨10, "compose:record:42", "read", Access.Allow⟩],
            sys_role_member := [⟨10, 7⟩, ⟨11, 7⟩],
            faults := [] } }

/-- The store of `scenarioDeny` behind a database that fails the next statement. -/
def scenarioDown : resources :=
  { scenarioDeny with db := { scenarioDeny.db with faults := [some "connection refused"] } }

/-- A store whose only rule is the `Allow` of role `1` on the stored pattern
`ns:*`; user `7` is a member of role `1`. -/
def scenarioWildcard : resources :=
  { ctx := { identity := 7 },
    db := { sys_rules := [⟨1, "ns:*", "read", Access.Allow⟩],
            sys_role_member := [⟨1, 7⟩],
            faults := [] } }

/-- A store for the grant manager: role `3` is denied `read` on `ns:42`, role `7`
is allowed `read` and `update` on it, role `1` is denied `read` on `ns:1`. -/
def scenarioGrant : resources :=
  { ctx := { identity := 7 },
    db := { sys_rules := [⟨3, "ns:42", "read", Access.Deny⟩,
                          ⟨7, "ns:42", "read", Access.Allow⟩,
                          ⟨1, "ns:1", "read", Access.Deny⟩,
                          ⟨7, "ns:42", "update", Access.Allow⟩],
            sys_role_member := [⟨1, 7⟩],
            faults := [] } }

/-- The store of `scenarioGrant` behind a database that carries out the next
statement and fails the one after it. -/
def scenarioGrantFail : resources :=
  { scenarioGrant with db := { scenarioGrant.db with faults := [none, some "deadlock"] } }

/-- A store with a rule whose resource and operation are empty strings and a
rule on `a:b:c`, both for role `1`, of which user `7` is a member; the database
carries out the next statement. -/
def scenarioMalformed : resources :=
  { ctx := { identity := 7 },
    db := { sys_rules := [⟨1, "", "", Access.Allow⟩, ⟨1, "a:b:c", "read", Access.Deny⟩],
            sys_role_member := [⟨1, 7⟩],
            faults := [none] } }

/-- A store whose only rule is the `Deny` of role `1` on `ns:1`; user `7` is a
member of role `1`. -/
def scenarioLike : resources :=
  { ctx := { identity := 7 },
    db := { sys_rules := [⟨1, "ns:1", "read", Access.Deny⟩],
            sys_role_member := [⟨1, 7⟩],
            faults := [] } }

/-! ## The precedence order of the spec -/

/-- Modelled from the spec: the precedence order `Deny > Allow > Inherit` of the
values, as a rank; the source has no such function, its two loops are
`foldAccess`. -/
def Access.rank : Access → Nat
  | Access.Deny => 2
  | Access.Allow => 1
  | Access.Inherit => 0

end rules

/-!
The event code generator (`codegen/v2/events.go`): the part of the loop of
`main` that checks the name of a resource against the name of the service and
derives the identifier and the file name from it. A character of a string of
the model stands for a byte of the Go string.
-/

namespace codegen

/-- The slice expression `s[:n]`; `none` is the run-time panic of Go for a bound
out of range, `n > len(s)`. -/
def sliceTo (s : List Char) (n : Nat) : Option (List Char) :=
  if n ≤ s.length then some (s.take n) else none

/-- The slice expression `s[n:]`; `none` is the run-time panic of Go for a bound
out of range, `n > len(s)`. -/
def sliceFrom (s : List Char) (n : Nat) : Option (List Char) :=
  if n ≤ s.length then some (s.drop n) else none

/-- The call `strings.Split(s, sep)` for a separator of one byte. -/
def split (sep : Char) : List Char → List (List Char)
  | [] => [[]]
  | c :: cs =>
    if c = sep then [] :: split sep cs
    else
      match split sep cs with
      | [] => [[c]]
      | p :: ps => (c :: p) :: ps

/-- The call `strings.ReplaceAll(s, old, new)` for `old` and `new` of one byte. -/
def replaceAll (s : List Char) (old new : Char) : List Char :=
  s.map fun c => if c = old then new else c

/-- The loop of `camelCase(pp ...string)`, from index `i` on, with `out` built
so far: a part after the first that is longer than one byte gets its first byte
in upper case. -/
def camelCase.loop : Nat → List (List Char) → List Char → List Char
  | _, [], out => out
  | i, p :: pp, out =>
    let p := if 0 < i ∧ 1 < p.length then (p.take 1).map Char.toUpper ++ p.drop 1 else p
    camelCase.loop (i + 1) pp (out ++ p)

/-- The function `camelCase(pp ...string)`. -/
def camelCase (pp : List (List Char)) : List Char :=
  camelCase.loop 0 pp []

/-- What one round of the loop `for resName, evDef := range defs` of `main` does
with the name of the resource, up to line 144. -/
inductive ResourceNames where
  /-- The round goes on with `tplData.ResourceIdent` and `fname` set. -/
  | names (ResourceIdent fname : String)
  /-- The call `cli.HandleError(fmt.Errorf("invalid resource prefix: %q",
  resName))`, which ends the run. -/
  | rejected (resName : String)
  /-- A run-time panic, slice bounds out of range. -/
  | panicOutOfRange
deriving DecidableEq, Repr

/-- Lines 124 to 144 of `main`: `l = len(serviceStr)`, `fname = resName`, and
the three branches on `resName`. -/
def resourceNames (serviceStr resName : String) : ResourceNames :=
  let l := serviceStr.length
  let fname := resName
  if resName = serviceStr then
    ResourceNames.names resName fname
  else if resName.length ≤ l then
    ResourceNames.rejected resName
  else
    match sliceTo resName.data (l + 2) with
    | none => ResourceNames.panicOutOfRange
    | some head =>
      if head = serviceStr.data ++ [':'] then
        ResourceNames.rejected resName
      else
        match sliceFrom resName.data (l + 1) with
        | none => ResourceNames.panicOutOfRange
        | some rest =>
          ResourceNames.names (String.mk (camelCase (split ':' rest)))
            (String.mk (replaceAll (replaceAll rest ':' '_') '-' '_'))

end codegen

/-!
The user service (`system/service/user.go`): `Create`, `Update`, `UniqueCheck`
and the two `...WithAvatar` methods. The collaborators of the service that are
not part of the file (access control, event bus, subscription, handle and
address validation, `createHandle`, the user repository) are parameters; the
store of the repository is state that is passed explicitly.
-/

namespace service

/-- A Go `error` value, identified by its name. -/
abbrev Error := String

/-- The constant `ErrInvalidID`. -/
def ErrInvalidID : Error := "InvalidID"

/-- The constant `ErrInvalidHandle`. -/
def ErrInvalidHandle : Error := "InvalidHandle"

/-- The constant `ErrNoCreatePermissions`. -/
def ErrNoCreatePermissions : Error := "NoCreatePermissions"

/-- The constant `ErrNoUpdatePermissions`. -/
def ErrNoUpdatePermissions : Error := "NoUpdatePermissions"

/-- The constant `ErrUserInvalidEmail`. -/
def ErrUserInvalidEmail : Error := "UserInvalidEmail"

/-- The constant `ErrUserEmailNotUnique`. -/
def ErrUserEmailNotUnique : Error := "UserEmailNotUnique"

/-- The constant `ErrUserUsernameNotUnique`. -/
def ErrUserUsernameNotUnique : Error := "UserUsernameNotUnique"

/-- The constant `ErrUserHandleNotUnique`. -/
def ErrUserHandleNotUnique : Error := "UserHandleNotUnique"

/-- The struct `types.User`, whose declaration is not part of `user.go`: the
fields that `Create`, `Update` and `UniqueCheck` read and write. -/
structure User where
  ID : Nat
  Email : String
  Username : String
  Name : String
  Handle : String
  Kind : String
deriving DecidableEq, Repr

/-- The struct `types.UserFilter` as `UniqueCheck` fills it: one of `Email`,
`Username`, `Handle`; `Deleted` and `Suspended` have the same two constants in
every call and are left to the repository. -/
structure UserFilter where
  Email : String
  Username : String
  Handle : String
deriving DecidableEq, Repr

/-- The events the two methods send to the event bus. -/
inductive Event where
  | UserBeforeCreate (new : User) (old : Option User)
  | UserAfterCreate (new : User) (old : Option User)
  | UserBeforeUpdate (upd : User) (old : Option User)
  | UserAfterUpdate (upd : User) (old : Option User)
deriving DecidableEq, Repr

/-- The interface `repository.UserRepository` as far as the methods below call
it, over a store of type `σ`. -/
structure UserRepository (σ : Type) where
  FindByID : σ → Nat → Except Error User
  Find : σ → UserFilter → Except Error (List User)
  Total : σ → Nat
  Create : σ → User → Except Error User × σ
  Update : σ → User → Except Error User × σ

/-- The receiver `user` of the source: its collaborators and the identity of
the context. `subscription` is `none` for the nil interface. -/
structure user (σ : Type) where
  identity : Nat
  CanCreateUser : Bool
  CanUpdateUser : User → Bool
  handleIsValid : String → Bool
  parseAddress : String → Option Error
  subscription : Option (Nat → Option Error)
  WaitFor : Event → Option Error
  createHandle : σ → User → User
  repo : UserRepository σ

/-- The call `svc.db.Transaction(callback)`: the changes of a callback that
returns an error are rolled back. -/
def Transaction {σ α : Type} (st : σ) (callback : σ → (α × Option Error) × σ) :
    (α × Option Error) × σ :=
  match callback st with
  | ((a, some e), _) => ((a, some e), st)
  | ((a, none), st') => ((a, none), st')

/-- The closure `isUnique(field)` of `UniqueCheck`. -/
def isUnique {σ : Type} (svc : user σ) (st : σ) (u : User) (field : String) : Bool :=
  let f : Option UserFilter :=
    if field = "email" then
      if u.Email = "" then none else some ⟨u.Email, "", ""⟩
    else if field = "username" then
      if u.Username = "" then none else some ⟨"", u.Username, ""⟩
    else if field = "handle" then
      if u.Handle = "" then none else some ⟨"", "", u.Handle⟩
    else some ⟨"", "", ""⟩
  match f with
  | none => true
  | some f =>
    match svc.repo.Find st f with
    | Except.error _ => false
    | Except.ok set =>
      if 1 < set.length then false
      else
        match set with
        | [] => true
        | first :: _ => first.ID = u.ID

/-- Method `(svc user) UniqueCheck(u)`. -/
def user.UniqueCheck {σ : Type} (svc : user σ) (st : σ) (u : User) : Option Error :=
  if !isUnique svc st u "email" then some ErrUserEmailNotUnique
  else if !isUnique svc st u "username" then some ErrUserUsernameNotUnique
  else if !isUnique svc st u "handle" then some ErrUserHandleNotUnique
  else none

/-- Method `(svc user) Create(new)`: the result `(u, err)` and the store after
the call. The result `u` is read after the transaction has run; the deferred
`eventbus.Dispatch` of `UserAfterCreate` does not bear on either and is left
out. -/
def user.Create {σ : Type} (svc : user σ) (st : σ) (new : User) :
    (Option User × Option Error) × σ :=
  if !svc.CanCreateUser then ((none, some ErrNoCreatePermissions), st)
  else if !svc.handleIsValid new.Handle then ((none, some ErrInvalidHandle), st)
  else if (svc.parseAddress new.Email).isSome then ((none, some ErrUserInvalidEmail), st)
  else
    let limit : Option Error :=
      match svc.subscription with
      | none => none
      | some CanCreateUser => CanCreateUser (svc.repo.Total st)
    match limit with
    | some err => ((none, some err), st)
    | none =>
      match svc.WaitFor (Event.UserBeforeCreate new none) with
      | some err => ((none, some err), st)
      | none =>
        let new := if new.Handle = "" then svc.createHandle st new else new
        Transaction st fun st =>
          match svc.UniqueCheck st new with
          | some err => ((none, some err), st)
          | none =>
            match svc.repo.Create st new with
            | (Except.error err, st') => ((none, some err), st')
            | (Except.ok u, st') => ((some u, none), st')

/-- Method `(svc user) CreateWithAvatar(input, avatar)`. -/
def user.CreateWithAvatar {σ : Type} (svc : user σ) (st : σ) (input : User)
    (_avatar : List Nat) : (Option User × Option Error) × σ :=
  svc.Create st input

/-- Method `(svc user) Update(upd)`: the result `(u, err)` and the store after
the call. The result `u` is read after the transaction has run; the deferred
`eventbus.Dispatch` of `UserAfterUpdate` does not bear on either and is left
out. -/
def user.Update {σ : Type} (svc : user σ) (st : σ) (upd : User) :
    (Option User × Option Error) × σ :=
  if upd.ID = 0 then ((none, some ErrInvalidID), st)
  else if !svc.handleIsValid upd.Handle then ((none, some ErrInvalidHandle), st)
  else if (svc.parseAddress upd.Email).isSome then ((none, some ErrUserInvalidEmail), st)
  else
    match svc.repo.FindByID st upd.ID with
    | Except.error err => ((none, some err), st)
    | Except.ok u =>
      if upd.ID ≠ svc.identity ∧ !svc.CanUpdateUser u then
        ((none, some ErrNoUpdatePermissions), st)
      else
        let u := { u with Email := upd.Email, Username := upd.Username, Name := upd.Name,
                          Handle := upd.Handle, Kind := upd.Kind }
        match svc.WaitFor (Event.UserBeforeUpdate upd (some u)) with
        | some err => ((some u, some err), st)
        | none =>
          Transaction st fun st =>
            match svc.UniqueCheck st u with
            | some err => ((some u, some err), st)
            | none =>
              match svc.repo.Update st u with
              | (Except.error err, st') => ((none, some err), st')
              | (Except.ok u, st') => ((some u, none), st')

/-- Method `(svc user) UpdateWithAvatar(mod, avatar)`: the body of the source is
`return svc.Create(mod)`. -/
def user.UpdateWithAvatar {σ : Type} (svc : user σ) (st : σ) (mod : User)
    (_avatar : List Nat) : (Option User × Option Error) × σ :=
  svc.Create st mod

/-! ### A sample service -/

/-- A repository that keeps the users in a list: `Create` gives the user the
first free id after the largest one and adds it at the end, `Update` replaces
the user with the same id. -/
def listRepository : UserRepository (List User) :=
  { FindByID := fun st id =>
      match st.find? fun x => x.ID = id with
      | some u => Except.ok u
      | none => Except.error "NotFound"
    Find := fun st f =>
      Except.ok (st.filter fun x =>
        (f.Email = "" ∨ x.Email = f.Email) ∧ (f.Username = "" ∨ x.Username = f.Username) ∧
          (f.Handle = "" ∨ x.Handle = f.Handle))
    Total := fun st => st.length
    Create := fun st u =>
      let u := { u with ID := (st.map User.ID).foldl max 0 + 1 }
      (Except.ok u, st ++ [u])
    Update := fun st u => (Except.ok u, st.map fun x => if x.ID = u.ID then u else x) }

/-- A service over `listRepository` that permits everything for the identity
`1`, with no subscription and no event handler; an address is valid when it
holds an `@`. -/
def sampleService : user (List User) :=
  { identity := 1
    CanCreateUser := true
    CanUpdateUser := fun _ => true
    handleIsValid := fun _ => true
    parseAddress := fun e => if e.data.contains '@' then none else some "mail: missing at sign"
    subscription := none
    WaitFor := fun _ => none
    createHandle := fun _ u => u
    repo := listRepository }

/-- A store with the two users `1` and `5`. -/
def sampleUsers : List User :=
  [⟨1, "admin@example.org", "admin", "Admin", "admin", ""⟩,
   ⟨5, "ann@example.org", "ann", "Ann", "ann", ""⟩]

end service

namespace rules

/-! ## The precedence fold -/

theorem foldAccess_of_deny_mem {vals : List Access} (h : Access.Deny ∈ vals) :
    foldAccess vals = Access.Deny := by
  have hany : vals.any (fun val => decide (val = Access.Deny)) = true :=
    List.any_eq_true.mpr ⟨Access.Deny, h, by simp⟩
  simp [foldAccess, hany]

theorem foldAccess_of_allow_mem {vals : List Access} (ha : Access.Allow ∈ vals)
    (hd : Access.Deny ∉ vals) : foldAccess vals = Access.Allow := by
  have hdeny : vals.any (fun val => decide (val = Access.Deny)) = false := by
    rw [Bool.eq_false_iff]
    intro hany
    obtain ⟨v, hv, hv'⟩ := List.any_eq_true.mp hany
    exact hd (by simpa using (of_decide_eq_true hv') ▸ hv)
  have hallow : vals.any (fun val => decide (val = Access.Allow)) = true :=
    List.any_eq_true.mpr ⟨Access.Allow, ha, by simp⟩
  simp [foldAccess, hdeny, hallow]

theorem foldAccess_nil : foldAccess [] = Access.Inherit := by
  simp [foldAccess]

/-! ## The resolver: what the verdict is, given the outcome of the query -/

theorem checkAccess_fst (r : resources) (resource operation : String) :
    (r.checkAccess resource operation).1 =
      match (r.db.Select r.identity (whereEq resource operation)).1 with
      | Except.error _ => Access.Deny
      | Except.ok result => foldAccess result := by
  unfold resources.checkAccess
  rcases hq : r.db.Select r.identity (whereEq resource operation) with ⟨res, db'⟩
  cases res <;> simp [hq]

theorem checkAccessMulti_fst (r : resources) (resource operation : String) :
    (r.checkAccessMulti resource operation).1 =
      match (r.db.Select r.identity (whereLike (replaceStar resource) operation)).1 with
      | Except.error _ => Access.Deny
      | Except.ok result => foldAccess result := by
  unfold resources.checkAccessMulti
  rcases hq : r.db.Select r.identity (whereLike (replaceStar resource) operation) with ⟨res, db'⟩
  cases res <;> simp [hq]

theorem IsAllowed_of_containsStar_eq_false (r : resources) {resource : String}
    (h : containsStar resource = false) (operation : String) :
    r.IsAllowed resource operation = r.checkAccess resource operation := by
  simp [resources.IsAllowed, h]

theorem IsAllowed_of_containsStar_eq_true (r : resources) {resource : String}
    (h : containsStar resource = true) (operation : String) :
    r.IsAllowed resource operation = r.checkAccessMulti resource operation := by
  simp [resources.IsAllowed, h]

/-- C1, deny absoluteness: when the query that `IsAllowed` sends (the exact one
for a resource without `*`, the `LIKE` one for a resource with `*`) succeeds and
`Deny` is among the values it returns, at any place and next to any number of
`Allow` values, `IsAllowed` returns `Deny`. -/
theorem IsAllowed_deny_absolute (r : resources) (resource operation : String)
    (vals : List Access)
    (hq : (containsStar resource = false ∧
            (r.db.Select r.identity (whereEq resource operation)).1 = Except.ok vals) ∨
          (containsStar resource = true ∧
            (r.db.Select r.identity (whereLike (replaceStar resource) operation)).1
              = Except.ok vals))
    (hd : Access.Deny ∈ vals) :
    (r.IsAllowed resource operation).1 = Access.Deny := by
  rcases hq with ⟨hs, hq⟩ | ⟨hs, hq⟩
  · simp [resources.IsAllowed, hs, checkAccess_fst, hq, foldAccess_of_deny_mem hd]
  · simp [resources.IsAllowed, hs, checkAccessMulti_fst, hq, foldAccess_of_deny_mem hd]

/-- Witness of C1 in both modes, on the scenario of the spec. -/
theorem IsAllowed_deny_absolute_witness :
    (scenarioDeny.IsAllowed "compose:record:42" "read").1 = Access.Deny ∧
    (scenarioDeny.IsAllowed "compose:*" "read").1 = Access.Deny :=
  ⟨IsAllowed_deny_absolute scenarioDeny "compose:record:42" "read"
      [Access.Allow, Access.Deny] (Or.inl ⟨by decide, rfl⟩) (by decide),
   IsAllowed_deny_absolute scenarioDeny "compose:*" "read"
      [Access.Allow, Access.Deny] (Or.inr ⟨by decide, rfl⟩) (by decide)⟩

/-- C2, allow when no deny: when the query that `IsAllowed` sends succeeds and
the values it returns hold at least one `Allow` and no `Deny`, `IsAllowed`
returns `Allow`. -/
theorem IsAllowed_allow_when_no_deny (r : resources) (resource operation : String)
    (vals : List Access)
    (hq : (containsStar resource = false ∧
            (r.db.Select r.identity (whereEq resource operation)).1 = Except.ok vals) ∨
          (containsStar resource = true ∧
            (r.db.Select r.identity (whereLike (replaceStar resource) operation)).1
              = Except.ok vals))
    (ha : Access.Allow ∈ vals) (hd : Access.Deny ∉ vals) :
    (r.IsAllowed resource operation).1 = Access.Allow := by
  rcases hq with ⟨hs, hq⟩ | ⟨hs, hq⟩
  · simp [resources.IsAllowed, hs, checkAccess_fst, hq, foldAccess_of_allow_mem ha hd]
  · simp [resources.IsAllowed, hs, checkAccessMulti_fst, hq, foldAccess_of_allow_mem ha hd]

/-- Witness of C2 in both modes, on the first half of the scenario of the spec. -/
theorem IsAllowed_allow_when_no_deny_witness :
    (scenarioAllow.IsAllowed "compose:record:42" "read").1 = Access.Allow ∧
    (scenarioAllow.IsAllowed "compose:record:*" "read").1 = Access.Allow :=
  ⟨IsAllowed_allow_when_no_deny scenarioAllow "compose:record:42" "read"
      [Access.Allow] (Or.inl ⟨by decide, rfl⟩) (by decide) (by decide),
   IsAllowed_allow_when_no_deny scenarioAllow "compose:record:*" "read"
      [Access.Allow] (Or.inr ⟨by decide, rfl⟩) (by decide) (by decide)⟩

/-! ## The query, in terms of the stored rows -/

theorem Select_fst (db : DB) (user : Nat) (cond : Rule → Bool) :
    (db.Select user cond).1 =
      match db.exec.1 with
      | some e => Except.error e
      | none => Except.ok (((db.joinMembers user).filter cond).map Rule.Value) := by
  unfold DB.Select
  rcases hx : db.exec with ⟨o, db'⟩
  cases o <;> simp

theorem mem_joinMembers {db : DB} {user : Nat} {x : Rule} :
    x ∈ db.joinMembers user ↔
      x ∈ db.sys_rules ∧ ∃ m ∈ db.sys_role_member, m.rel_role = x.RoleID ∧ m.rel_user = user := by
  unfold DB.joinMembers
  simp only [List.mem_flatMap, List.mem_map, List.mem_filter, decide_eq_true_eq]
  constructor
  · rintro ⟨y, hy, m, ⟨hm, hrole, huser⟩, rfl⟩
    exact ⟨hy, m, hm, hrole, huser⟩
  · rintro ⟨hx, m, hm, hrole, huser⟩
    exact ⟨x, hx, m, ⟨hm, hrole, huser⟩, rfl⟩

/-- C3, no matching rule: when the database carries out the query and no stored
rule of a role the identity is a member of, with the queried operation, has the
queried resource (equal to it for a resource without `*`, matched by it for a
resource with `*`), `IsAllowed` returns `Inherit`. -/
theorem IsAllowed_no_rule_inherit (r : resources) (resource operation : String)
    (hok : r.db.exec.1 = none)
    (hexact : containsStar resource = false →
      ∀ x ∈ r.db.sys_rules, ∀ m ∈ r.db.sys_role_member,
        m.rel_user = r.identity → m.rel_role = x.RoleID → x.Operation = operation →
          x.Resource ≠ resource)
    (hlike : containsStar resource = true →
      ∀ x ∈ r.db.sys_rules, ∀ m ∈ r.db.sys_role_member,
        m.rel_user = r.identity → m.rel_role = x.RoleID → x.Operation = operation →
          sqlLike (replaceStar resource).data x.Resource.data = false) :
    (r.IsAllowed resource operation).1 = Access.Inherit := by
  cases hs : containsStar resource
  · have hempty : (r.db.joinMembers r.identity).filter (whereEq resource operation) = [] := by
      rw [List.filter_eq_nil_iff]
      intro x hx hc
      obtain ⟨hx, m, hm, hrole, huser⟩ := mem_joinMembers.mp hx
      simp only [whereEq, Bool.and_eq_true, decide_eq_true_eq] at hc
      exact hexact hs x hx m hm huser hrole hc.2 hc.1
    simp [resources.IsAllowed, hs, checkAccess_fst, Select_fst, hok, hempty, foldAccess_nil]
  · have hempty :
        (r.db.joinMembers r.identity).filter (whereLike (replaceStar resource) operation) = [] := by
      rw [List.filter_eq_nil_iff]
      intro x hx hc
      obtain ⟨hx, m, hm, hrole, huser⟩ := mem_joinMembers.mp hx
      simp only [whereLike, Bool.and_eq_true, decide_eq_true_eq] at hc
      have := hlike hs x hx m hm huser hrole hc.2
      rw [hc.1] at this
      exact Bool.noConfusion this
    simp [resources.IsAllowed, hs, checkAccessMulti_fst, Select_fst, hok, hempty, foldAccess_nil]

/-- Witness of C3 in both modes: `update` has no rule in the scenario of the
spec, and no stored resource lies under `system:`. -/
theorem IsAllowed_no_rule_inherit_witness :
    (scenarioDeny.IsAllowed "compose:record:42" "update").1 = Access.Inherit ∧
    (scenarioDeny.IsAllowed "system:*" "read").1 = Access.Inherit :=
  ⟨IsAllowed_no_rule_inherit scenarioDeny "compose:record:42" "update"
      (by decide) (by decide) (by decide),
   IsAllowed_no_rule_inherit scenarioDeny "system:*" "read"
      (by decide) (by decide) (by decide)⟩

/-- C4, fail-closed: when the query that `IsAllowed` sends returns an error, in
the exact mode or in the pattern mode, `IsAllowed` returns `Deny`. -/
theorem IsAllowed_fail_closed (r : resources) (resource operation : String) (e : Error)
    (hq : (containsStar resource = false ∧
            (r.db.Select r.identity (whereEq resource operation)).1 = Except.error e) ∨
          (containsStar resource = true ∧
            (r.db.Select r.identity (whereLike (replaceStar resource) operation)).1
              = Except.error e)) :
    (r.IsAllowed resource operation).1 = Access.Deny := by
  rcases hq with ⟨hs, hq⟩ | ⟨hs, hq⟩
  · simp [resources.IsAllowed, hs, checkAccess_fst, hq]
  · simp [resources.IsAllowed, hs, checkAccessMulti_fst, hq]

/-- Witness of C4 in both modes: the database fails the statement; the resource
queried in exact mode has no rule at all. -/
theorem IsAllowed_fail_closed_witness :
    (scenarioDown.IsAllowed "compose:record:1" "read").1 = Access.Deny ∧
    (scenarioDown.IsAllowed "system:*" "read").1 = Access.Deny :=
  ⟨IsAllowed_fail_closed scenarioDown "compose:record:1" "read" "connection refused"
      (Or.inl ⟨by decide, rfl⟩),
   IsAllowed_fail_closed scenarioDown "system:*" "read" "connection refused"
      (Or.inr ⟨by decide, rfl⟩)⟩

/-! ## Stored patterns in exact mode -/

theorem filter_joinMembers (db : DB) (user : Nat) (cond : Rule → Bool) :
    (db.joinMembers user).filter cond
      = ({ db with sys_rules := db.sys_rules.filter cond } : DB).joinMembers user := by
  unfold DB.joinMembers
  simp only
  induction db.sys_rules with
  | nil => simp
  | cons x xs ih =>
    rw [List.flatMap_cons, List.filter_append, ih]
    cases hc : cond x
    · rw [List.filter_cons_of_neg (by simp [hc])]
      have : List.filter cond
          ((db.sys_role_member.filter fun m => m.rel_role = x.RoleID ∧ m.rel_user = user).map
            fun _ => x) = [] := by
        rw [List.filter_eq_nil_iff]
        intro y hy
        obtain ⟨_, _, rfl⟩ := List.mem_map.mp hy
        simp [hc]
      rw [this, List.nil_append]
    · rw [List.filter_cons_of_pos hc, List.flatMap_cons]
      congr 1
      rw [List.filter_eq_self]
      intro y hy
      obtain ⟨_, _, rfl⟩ := List.mem_map.mp hy
      exact hc

theorem containsStar_append_star (P : String) : containsStar (P ++ "*") = true := by
  simp [containsStar, String.data_append]

/-- Counterexample to C5 as stated: `ns:` is a prefix of the queried resources,
which hold no `*`, and a role of the identity has a stored `Allow` on `ns:*`; yet
the query returns nothing and `IsAllowed` returns `Inherit`, not `Allow`. -/
theorem IsAllowed_stored_wildcard_counterexample :
    containsStar "ns:module:1" = false ∧
    "ns:".data.isPrefixOf "ns:module:1".data = true ∧
    (scenarioWildcard.db.Select scenarioWildcard.identity (whereEq "ns:module:1" "read")).1
      = Except.ok [] ∧
    (scenarioWildcard.IsAllowed "ns:module:1" "read").1 = Access.Inherit ∧
    (scenarioWildcard.IsAllowed "ns:module:1" "read").1 ≠ Access.Allow ∧
    (scenarioWildcard.IsAllowed "ns:module:2:field:3" "read").1 ≠ Access.Allow :=
  ⟨by decide, by decide, rfl, by decide, by decide, by decide⟩

/-- C5 as amended: in exact mode a stored pattern is not expanded. For a queried
resource `R` without `*`, a stored rule whose resource is `P` followed by `*`
takes no part in the verdict, whether or not `P` is a prefix of `R`: wherever
the rule stands in `sys_rules`, `IsAllowed` returns with it what it returns
without it. -/
theorem IsAllowed_exact_ignores_stored_wildcard (ctx : Context) (pre post : List Rule)
    (rule : Rule) (members : List RoleMember) (faults : List (Option Error))
    (P R operation : String)
    (hR : containsStar R = false) (hrule : rule.Resource = P ++ "*") :
    (resources.IsAllowed ⟨ctx, ⟨pre ++ rule :: post, members, faults⟩⟩ R operation).1
      = (resources.IsAllowed ⟨ctx, ⟨pre ++ post, members, faults⟩⟩ R operation).1 := by
  have hne : rule.Resource ≠ R := by
    intro h
    have := containsStar_append_star P
    rw [← hrule, h, hR] at this
    exact Bool.noConfusion this
  have hcond : whereEq R operation rule = false := by
    simp [whereEq, hne]
  have hfilter : (pre ++ rule :: post).filter (whereEq R operation)
      = (pre ++ post).filter (whereEq R operation) := by
    rw [List.filter_append, List.filter_append, List.filter_cons_of_neg (by simp [hcond])]
  rw [IsAllowed_of_containsStar_eq_false _ hR, IsAllowed_of_containsStar_eq_false _ hR,
    checkAccess_fst, checkAccess_fst, Select_fst, Select_fst, filter_joinMembers,
    filter_joinMembers]
  simp only [hfilter]
  cases faults <;> rfl

/-- Witness of C5 as amended: the stored `Allow` on `ns:*` changes nothing for
the query of `ns:module:1`. -/
theorem IsAllowed_exact_ignores_stored_wildcard_witness :
    (scenarioWildcard.IsAllowed "ns:module:1" "read").1
      = (resources.IsAllowed ⟨⟨7⟩, ⟨[], [⟨1, 7⟩], []⟩⟩ "ns:module:1" "read").1 :=
  IsAllowed_exact_ignores_stored_wildcard ⟨7⟩ [] [] ⟨1, "ns:*", "read", Access.Allow⟩
    [⟨1, 7⟩] [] "ns:" "ns:module:1" "read" (by decide) (by decide)

/-! ## The loops of the grant manager -/

theorem Grant_loop_cons (roleID : Nat) (rule : Rule) (rules : List Rule) (db : DB) :
    resources.Grant.loop roleID (rule :: rules) db =
      match db.faults with
      | some e :: fs => (some e, { db with faults := fs })
      | none :: fs =>
        resources.Grant.loop roleID rules
          { sys_rules := applyRule roleID rule db.sys_rules,
            sys_role_member := db.sys_role_member, faults := fs }
      | [] =>
        resources.Grant.loop roleID rules
          { sys_rules := applyRule roleID rule db.sys_rules,
            sys_role_member := db.sys_role_member, faults := [] } := by
  rcases db with ⟨rows, members, faults⟩
  rcases rule with ⟨rid, res, op, val⟩
  rcases faults with _ | ⟨f, fs⟩
  · cases val <;> simp [resources.Grant.loop, DB.NamedExec, DB.Replace, DB.exec, applyRule]
  · cases f <;> cases val <;>
      simp [resources.Grant.loop, DB.NamedExec, DB.Replace, DB.exec, applyRule]

theorem GrantByResource_loop_eq_Grant_loop (roleID : Nat) (resource : String) (value : Access)
    (operations : List String) :
    ∀ (row : Rule) (db : DB), row.RoleID = roleID → row.Resource = resource →
      row.Value = value →
      resources.GrantByResource.loop value row operations db =
        resources.Grant.loop roleID
          (operations.map fun op => ⟨roleID, resource, op, value⟩) db := by
  induction operations with
  | nil => intro row db _ _ _; rfl
  | cons op ops ih =>
    intro row db h1 h2 h3
    rcases row with ⟨rid, res, o, val⟩
    simp only at h1 h2 h3
    subst h1 h2 h3
    rcases db with ⟨rows, members, faults⟩
    rcases faults with _ | ⟨f, fs⟩
    · cases val <;>
        simp [resources.GrantByResource.loop, resources.Grant.loop, DB.NamedExec, DB.Replace,
          DB.exec, ih]
    · cases f <;> cases val <;>
        simp [resources.GrantByResource.loop, resources.Grant.loop, DB.NamedExec, DB.Replace,
          DB.exec, ih]

theorem GrantByResource_eq_Grant (r : resources) (roleID : Nat) (resource : String)
    (operations : List String) (value : Access) :
    r.GrantByResource roleID resource operations value =
      r.Grant roleID (operations.map fun op => ⟨roleID, resource, op, value⟩) := by
  unfold resources.GrantByResource resources.Grant
  congr 1
  funext db
  exact GrantByResource_loop_eq_Grant_loop roleID resource value operations _ db rfl rfl rfl

theorem Grant_loop_fail (roleID : Nat) :
    ∀ (rules : List Rule) (db : DB) (i : Nat) (e : Error), i < rules.length →
      db.faults.getD i none = some e → (∀ j < i, db.faults.getD j none = none) →
      (resources.Grant.loop roleID rules db).1 = some e := by
  intro rules
  induction rules with
  | nil => intro db i e hi; simp at hi
  | cons rule rules ih =>
    intro db i e hi hfail hprev
    rw [Grant_loop_cons]
    rcases hf : db.faults with _ | ⟨f, fs⟩
    · simp [hf] at hfail
    · cases i with
      | zero =>
        simp only [hf, List.getD_cons_zero] at hfail
        subst hfail
        rfl
      | succ i =>
        have h0 := hprev 0 (Nat.succ_pos i)
        simp only [hf, List.getD_cons_zero] at h0
        subst h0
        simp only [hf, List.getD_cons_succ] at hfail
        refine ih _ i e (Nat.lt_of_succ_lt_succ hi) hfail ?_
        intro j hj
        have := hprev (j + 1) (Nat.succ_lt_succ hj)
        simpa [hf] using this

theorem Grant_loop_sys_role_member (roleID : Nat) :
    ∀ (rules : List Rule) (db : DB),
      (resources.Grant.loop roleID rules db).2.sys_role_member = db.sys_role_member := by
  intro rules
  induction rules with
  | nil => intro db; rfl
  | cons rule rules ih =>
    intro db
    rw [Grant_loop_cons]
    rcases db.faults with _ | ⟨f, fs⟩
    · exact ih _
    · cases f
      · exact ih _
      · rfl

theorem Transaction_of_error (db : DB) (callback : DB → Option Error × DB) (e : Error)
    (h : (callback db).1 = some e) :
    (db.Transaction callback).1 = some e ∧
      (db.Transaction callback).2.sys_rules = db.sys_rules ∧
      (db.Transaction callback).2.sys_role_member = db.sys_role_member := by
  unfold DB.Transaction
  rcases hc : callback db with ⟨o, db'⟩
  rw [hc] at h
  simp only at h
  subst h
  exact ⟨rfl, rfl, rfl⟩

theorem Transaction_of_ok (db : DB) (callback : DB → Option Error × DB)
    (h : (db.Transaction callback).1 = none) :
    (callback db).1 = none ∧ (db.Transaction callback).2 = (callback db).2 := by
  unfold DB.Transaction at h ⊢
  rcases hc : callback db with ⟨o, db'⟩
  rw [hc] at h
  cases o with
  | none => exact ⟨rfl, rfl⟩
  | some e => simp at h

theorem Transaction_sys_rules_cases (db : DB) (callback : DB → Option Error × DB) :
    (db.Transaction callback).2.sys_rules = db.sys_rules ∨
      (db.Transaction callback).2.sys_rules = (callback db).2.sys_rules := by
  unfold DB.Transaction
  rcases hc : callback db with ⟨o, db'⟩
  cases o with
  | none => exact Or.inr rfl
  | some e => exact Or.inl rfl

/-! ## The frame of one write and of the loops -/

theorem filter_applyRule (roleID : Nat) (rule : Rule) (rows : List Rule) (Q : Rule → Bool)
    (hQ : ∀ a b : Rule, a.sameKey b = true → Q a = Q b)
    (hrule : Q { rule with RoleID := roleID } = false) :
    (applyRule roleID rule rows).filter Q = rows.filter Q := by
  rcases rule with ⟨rid, res, op, val⟩
  simp only at hrule
  have hkeep : (rows.filter fun x => !x.sameKey ⟨roleID, res, op, val⟩).filter Q
      = rows.filter Q := by
    rw [List.filter_filter]
    apply List.filter_congr
    intro x _
    cases hk : x.sameKey ⟨roleID, res, op, val⟩
    · simp
    · have := hQ x _ hk
      rw [hrule] at this
      simp [this]
  unfold applyRule
  cases val <;> simp only [List.filter_append, hkeep, List.filter_cons, hrule] <;> simp

theorem Grant_loop_frame (roleID : Nat) (Q : Rule → Bool)
    (hQ : ∀ a b : Rule, a.sameKey b = true → Q a = Q b) :
    ∀ (rules : List Rule) (db : DB),
      (∀ x ∈ rules, Q { x with RoleID := roleID } = false) →
      (resources.Grant.loop roleID rules db).2.sys_rules.filter Q = db.sys_rules.filter Q := by
  intro rules
  induction rules with
  | nil => intro db _; rfl
  | cons rule rules ih =>
    intro db h
    have hrule := h rule (List.mem_cons_self _ _)
    have hrest : ∀ x ∈ rules, Q { x with RoleID := roleID } = false :=
      fun x hx => h x (List.mem_cons_of_mem _ hx)
    rw [Grant_loop_cons]
    rcases db.faults with _ | ⟨f, fs⟩
    · rw [ih _ hrest]
      exact filter_applyRule roleID rule _ Q hQ hrule
    · cases f
      · rw [ih _ hrest]
        exact filter_applyRule roleID rule _ Q hQ hrule
      · rfl

/-! ## The grant manager: failure -/

/-- C6, atomic batch grant on failure: when the database carries out the first
`i` writes of a call and fails write `i` with the error `e`, `GrantByResource`
(with more than `i` operations) and `Grant` (with more than `i` rules) return
`e` itself and leave `sys_rules` as it was before the call, the `i` writes that
were carried out included. -/
theorem grant_atomic_on_failure (r : resources) (roleID : Nat) (resource : String)
    (operations : List String) (value : Access) (rules : List Rule) (i : Nat) (e : Error)
    (hfail : r.db.faults.getD i none = some e)
    (hprev : ∀ j < i, r.db.faults.getD j none = none) :
    (i < operations.length →
      (r.GrantByResource roleID resource operations value).1 = some e ∧
      (r.GrantByResource roleID resource operations value).2.sys_rules = r.db.sys_rules) ∧
    (i < rules.length →
      (r.Grant roleID rules).1 = some e ∧
      (r.Grant roleID rules).2.sys_rules = r.db.sys_rules) := by
  have key : ∀ rs : List Rule, i < rs.length →
      (r.Grant roleID rs).1 = some e ∧ (r.Grant roleID rs).2.sys_rules = r.db.sys_rules := by
    intro rs hi
    have h := Transaction_of_error r.db (fun db => resources.Grant.loop roleID rs db) e
      (Grant_loop_fail roleID rs r.db i e hi hfail hprev)
    exact ⟨h.1, h.2.1⟩
  refine ⟨fun hi => ?_, key rules⟩
  rw [GrantByResource_eq_Grant]
  exact key _ (by simpa using hi)

/-- Witness of C6: the batch of the spec, `read` and `update` on `ns:42` for role
`3`, with the second write failed; the `Deny` on `read` that the first write
replaced is back. -/
theorem grant_atomic_on_failure_witness :
    ((scenarioGrantFail.GrantByResource 3 "ns:42" ["read", "update"] Access.Allow).1
        = some "deadlock" ∧
      (scenarioGrantFail.GrantByResource 3 "ns:42" ["read", "update"] Access.Allow).2.sys_rules
        = scenarioGrantFail.db.sys_rules) ∧
    ((scenarioGrantFail.Grant 3
        [⟨0, "ns:42", "read", Access.Inherit⟩, ⟨0, "ns:43", "read", Access.Allow⟩]).1
        = some "deadlock" ∧
      (scenarioGrantFail.Grant 3
        [⟨0, "ns:42", "read", Access.Inherit⟩, ⟨0, "ns:43", "read", Access.Allow⟩]).2.sys_rules
        = scenarioGrantFail.db.sys_rules) :=
  ⟨(grant_atomic_on_failure scenarioGrantFail 3 "ns:42" ["read", "update"] Access.Allow
      [⟨0, "ns:42", "read", Access.Inherit⟩, ⟨0, "ns:43", "read", Access.Allow⟩] 1 "deadlock"
      (by decide) (by decide)).1 (by decide),
   (grant_atomic_on_failure scenarioGrantFail 3 "ns:42" ["read", "update"] Access.Allow
      [⟨0, "ns:42", "read", Access.Inherit⟩, ⟨0, "ns:43", "read", Access.Allow⟩] 1 "deadlock"
      (by decide) (by decide)).2 (by decide)⟩

/-! ## The grant manager: the last write of a key decides -/

theorem sameKey_congr (k : Rule) (a b : Rule) (h : a.sameKey b = true) :
    a.sameKey k = b.sameKey k := by
  simp only [Rule.sameKey, Bool.and_eq_true, decide_eq_true_eq] at h
  obtain ⟨⟨h1, h2⟩, h3⟩ := h
  simp [Rule.sameKey, h1, h2, h3]

theorem Grant_loop_append (roleID : Nat) (post : List Rule) :
    ∀ (pre : List Rule) (db : DB), (resources.Grant.loop roleID (pre ++ post) db).1 = none →
      resources.Grant.loop roleID (pre ++ post) db
        = resources.Grant.loop roleID post (resources.Grant.loop roleID pre db).2 := by
  intro pre
  induction pre with
  | nil => intro db _; rfl
  | cons x pre ih =>
    intro db hs
    rcases db with ⟨rows, members, faults⟩
    rw [List.cons_append, Grant_loop_cons] at hs ⊢
    rw [Grant_loop_cons]
    rcases faults with _ | ⟨f, fs⟩
    · exact ih _ hs
    · cases f
      · exact ih _ hs
      · simp at hs

theorem filter_sameKey_applyRule (roleID : Nat) (x : Rule) (rows : List Rule) :
    (applyRule roleID x rows).filter (fun y => y.sameKey { x with RoleID := roleID })
      = if x.Value = Access.Inherit then [] else [{ x with RoleID := roleID }] := by
  rcases x with ⟨rid, res, op, val⟩
  have hnone : ((rows.filter fun y => !y.sameKey ⟨roleID, res, op, val⟩).filter
      fun y => y.sameKey ⟨roleID, res, op, val⟩) = [] := by
    rw [List.filter_filter, List.filter_eq_nil_iff]
    intro y _
    simp
  have hself : Rule.sameKey ⟨roleID, res, op, val⟩ ⟨roleID, res, op, val⟩ = true := by
    simp [Rule.sameKey]
  unfold applyRule
  cases val <;> simp [List.filter_append, hnone, hself]

theorem Grant_loop_last_write (roleID : Nat) (pre post : List Rule) (x : Rule) (db : DB)
    (hpost : ∀ y ∈ post, ¬(y.Resource = x.Resource ∧ y.Operation = x.Operation))
    (hs : (resources.Grant.loop roleID (pre ++ x :: post) db).1 = none) :
    (resources.Grant.loop roleID (pre ++ x :: post) db).2.sys_rules.filter
        (fun y => y.sameKey { x with RoleID := roleID })
      = if x.Value = Access.Inherit then [] else [{ x with RoleID := roleID }] := by
  have hframe : ∀ db' : DB,
      (resources.Grant.loop roleID post db').2.sys_rules.filter
          (fun y => y.sameKey { x with RoleID := roleID })
        = db'.sys_rules.filter (fun y => y.sameKey { x with RoleID := roleID }) := by
    intro db'
    apply Grant_loop_frame roleID _ (sameKey_congr _)
    intro y hy
    have := hpost y hy
    simp only [Rule.sameKey, Bool.and_eq_false_iff, decide_eq_false_iff_not]
    by_cases hr : y.Resource = x.Resource
    · exact Or.inr fun ho => this ⟨hr, ho⟩
    · exact Or.inl (Or.inr hr)
  have happ := Grant_loop_append roleID (x :: post) pre db hs
  rw [happ] at hs ⊢
  generalize (resources.Grant.loop roleID pre db).2 = db1 at hs ⊢
  rcases db1 with ⟨rows, members, faults⟩
  rw [Grant_loop_cons] at hs ⊢
  rcases faults with _ | ⟨f, fs⟩
  · simp only [hframe]
    exact filter_sameKey_applyRule roleID x _
  · cases f
    · simp only [hframe]
      exact filter_sameKey_applyRule roleID x _
    · simp at hs

theorem exists_last_occurrence {α : Type} [DecidableEq α] (a : α) :
    ∀ l : List α, a ∈ l → ∃ pre post, l = pre ++ a :: post ∧ a ∉ post := by
  intro l
  induction l with
  | nil => intro h; simp at h
  | cons b t ih =>
    intro h
    by_cases ht : a ∈ t
    · obtain ⟨pre, post, hl, hp⟩ := ih ht
      exact ⟨b :: pre, post, by rw [hl, List.cons_append], hp⟩
    · have hab : a = b := by
        rcases List.mem_cons.mp h with h | h
        · exact h
        · exact absurd h ht
      subst hab
      exact ⟨[], t, rfl, ht⟩

theorem GrantByResource_key (r : resources) (roleID : Nat) (resource : String)
    (operations : List String) (value : Access)
    (hs : (r.GrantByResource roleID resource operations value).1 = none)
    (op : String) (hop : op ∈ operations) :
    (r.GrantByResource roleID resource operations value).2.sys_rules.filter
        (fun x => decide (x.RoleID = roleID ∧ x.Resource = resource ∧ x.Operation = op))
      = if value = Access.Inherit then [] else [⟨roleID, resource, op, value⟩] := by
  have hfun : (fun x : Rule => decide (x.RoleID = roleID ∧ x.Resource = resource ∧ x.Operation = op))
      = fun x => x.sameKey { (⟨roleID, resource, op, value⟩ : Rule) with RoleID := roleID } := by
    funext x
    simp [Rule.sameKey, Bool.and_assoc]
  rw [GrantByResource_eq_Grant] at hs ⊢
  obtain ⟨hs1, hs2⟩ := Transaction_of_ok _ _ hs
  obtain ⟨pre, post, hl, hp⟩ := exists_last_occurrence op operations hop
  have hmap : (operations.map fun o => (⟨roleID, resource, o, value⟩ : Rule))
      = pre.map (fun o => (⟨roleID, resource, o, value⟩ : Rule))
        ++ (⟨roleID, resource, op, value⟩ : Rule)
          :: post.map (fun o => (⟨roleID, resource, o, value⟩ : Rule)) := by
    rw [hl, List.map_append, List.map_cons]
  unfold resources.Grant
  rw [hs2, hfun]
  simp only [hmap] at hs1 ⊢
  refine Grant_loop_last_write roleID _ _ ⟨roleID, resource, op, value⟩ r.db ?_ hs1
  intro y hy
  obtain ⟨o, ho, rfl⟩ := List.mem_map.mp hy
  rintro ⟨_, h⟩
  have h' : o = op := h
  subst h'
  exact hp ho

theorem GrantByResource_frame (r : resources) (roleID : Nat) (resource : String)
    (operations : List String) (value : Access) :
    (r.GrantByResource roleID resource operations value).2.sys_rules.filter
        (fun x => !decide (x.RoleID = roleID ∧ x.Resource = resource ∧ x.Operation ∈ operations))
      = r.db.sys_rules.filter
        (fun x => !decide (x.RoleID = roleID ∧ x.Resource = resource ∧ x.Operation ∈ operations)) := by
  rw [GrantByResource_eq_Grant]
  unfold resources.Grant
  rcases Transaction_sys_rules_cases r.db
      (fun db => resources.Grant.loop roleID
        (operations.map fun o => (⟨roleID, resource, o, value⟩ : Rule)) db) with h | h
  · rw [h]
  · rw [h]
    apply Grant_loop_frame
    · intro a b hab
      simp only [Rule.sameKey, Bool.and_eq_true, decide_eq_true_eq] at hab
      obtain ⟨⟨h1, h2⟩, h3⟩ := hab
      simp [h1, h2, h3]
    · intro y hy
      obtain ⟨o, ho, rfl⟩ := List.mem_map.mp hy
      simp [ho]

/-! ## The grant manager: success -/

/-- C7, grant postcondition on success: after a successful `GrantByResource`
with a value other than `Inherit`, for each listed operation `sys_rules` holds
exactly one rule with the key `(roleID, resource, operation)`, and it carries the
given value; the rules with any other key are the ones stored before, unchanged
and in the same order. -/
theorem GrantByResource_postcondition (r : resources) (roleID : Nat) (resource : String)
    (operations : List String) (value : Access)
    (hv : value ≠ Access.Inherit)
    (hs : (r.GrantByResource roleID resource operations value).1 = none) :
    (∀ op ∈ operations,
      (r.GrantByResource roleID resource operations value).2.sys_rules.filter
          (fun x => decide (x.RoleID = roleID ∧ x.Resource = resource ∧ x.Operation = op))
        = [⟨roleID, resource, op, value⟩]) ∧
    (r.GrantByResource roleID resource operations value).2.sys_rules.filter
        (fun x => !decide (x.RoleID = roleID ∧ x.Resource = resource ∧ x.Operation ∈ operations))
      = r.db.sys_rules.filter
        (fun x => !decide (x.RoleID = roleID ∧ x.Resource = resource ∧ x.Operation ∈ operations)) := by
  refine ⟨fun op hop => ?_, GrantByResource_frame r roleID resource operations value⟩
  rw [GrantByResource_key r roleID resource operations value hs op hop, if_neg hv]

/-- Witness of C7: the batch of the spec on a store that already denies `read`
on `ns:42` to role `3`. -/
theorem GrantByResource_postcondition_witness :
    (∀ op ∈ ["read", "update"],
      (scenarioGrant.GrantByResource 3 "ns:42" ["read", "update"] Access.Allow).2.sys_rules.filter
          (fun x => decide (x.RoleID = 3 ∧ x.Resource = "ns:42" ∧ x.Operation = op))
        = [⟨3, "ns:42", op, Access.Allow⟩]) ∧
    (scenarioGrant.GrantByResource 3 "ns:42" ["read", "update"] Access.Allow).2.sys_rules.filter
        (fun x => !decide (x.RoleID = 3 ∧ x.Resource = "ns:42" ∧ x.Operation ∈ ["read", "update"]))
      = scenarioGrant.db.sys_rules.filter
        (fun x => !decide (x.RoleID = 3 ∧ x.Resource = "ns:42" ∧ x.Operation ∈ ["read", "update"])) :=
  GrantByResource_postcondition scenarioGrant 3 "ns:42" ["read", "update"] Access.Allow
    (by decide) (by decide)

/-- C8, `Inherit` is sparse: after a successful `GrantByResource` with the value
`Inherit`, `sys_rules` holds no rule with the key `(roleID, resource, operation)`
for any listed operation, whatever was stored before, and the rules with any
other key are the ones stored before, unchanged and in the same order. -/
theorem GrantByResource_inherit_sparse (r : resources) (roleID : Nat) (resource : String)
    (operations : List String)
    (hs : (r.GrantByResource roleID resource operations Access.Inherit).1 = none) :
    (∀ x ∈ (r.GrantByResource roleID resource operations Access.Inherit).2.sys_rules,
      ¬(x.RoleID = roleID ∧ x.Resource = resource ∧ x.Operation ∈ operations)) ∧
    (r.GrantByResource roleID resource operations Access.Inherit).2.sys_rules.filter
        (fun x => !decide (x.RoleID = roleID ∧ x.Resource = resource ∧ x.Operation ∈ operations))
      = r.db.sys_rules.filter
        (fun x => !decide (x.RoleID = roleID ∧ x.Resource = resource ∧ x.Operation ∈ operations)) := by
  refine ⟨?_, GrantByResource_frame r roleID resource operations Access.Inherit⟩
  rintro x hx ⟨h1, h2, h3⟩
  have hkey := GrantByResource_key r roleID resource operations Access.Inherit hs x.Operation h3
  rw [if_pos rfl, List.filter_eq_nil_iff] at hkey
  exact hkey x hx (by simp [h1, h2])

/-- Witness of C8: role `7` has a stored `read` rule on `ns:42` and no stored
`delete` rule on it; after the grant of `Inherit` it has neither. -/
theorem GrantByResource_inherit_sparse_witness :
    (∀ x ∈ (scenarioGrant.GrantByResource 7 "ns:42" ["read", "delete"] Access.Inherit).2.sys_rules,
      ¬(x.RoleID = 7 ∧ x.Resource = "ns:42" ∧ x.Operation ∈ ["read", "delete"])) ∧
    (scenarioGrant.GrantByResource 7 "ns:42" ["read", "delete"] Access.Inherit).2.sys_rules.filter
        (fun x => !decide (x.RoleID = 7 ∧ x.Resource = "ns:42" ∧ x.Operation ∈ ["read", "delete"]))
      = scenarioGrant.db.sys_rules.filter
        (fun x => !decide (x.RoleID = 7 ∧ x.Resource = "ns:42" ∧ x.Operation ∈ ["read", "delete"])) :=
  GrantByResource_inherit_sparse scenarioGrant 7 "ns:42" ["read", "delete"] (by decide)

/-! ## The grant manager: invariants -/

theorem mem_applyRule {roleID : Nat} {rule : Rule} {rows : List Rule} {y : Rule}
    (h : y ∈ applyRule roleID rule rows) :
    y ∈ rows ∨ (y = { rule with RoleID := roleID } ∧ rule.Value ≠ Access.Inherit) := by
  rcases rule with ⟨rid, res, op, val⟩
  unfold applyRule at h
  cases val <;> simp only [List.mem_append, List.mem_filter, List.mem_singleton] at h
  · rcases h with h | h
    · exact Or.inl h.1
    · exact Or.inr ⟨h, by simp⟩
  · rcases h with h | h
    · exact Or.inl h.1
    · exact Or.inr ⟨h, by simp⟩
  · exact Or.inl h.1

theorem Grant_loop_no_inherit (roleID : Nat) :
    ∀ (rules : List Rule) (db : DB), (∀ x ∈ db.sys_rules, x.Value ≠ Access.Inherit) →
      ∀ x ∈ (resources.Grant.loop roleID rules db).2.sys_rules, x.Value ≠ Access.Inherit := by
  intro rules
  induction rules with
  | nil => intro db h; exact h
  | cons rule rules ih =>
    intro db h
    have hstep : ∀ y ∈ applyRule roleID rule db.sys_rules, y.Value ≠ Access.Inherit := by
      intro y hy
      rcases mem_applyRule hy with hy | ⟨rfl, hv⟩
      · exact h y hy
      · exact hv
    rcases db with ⟨rows, members, faults⟩
    rw [Grant_loop_cons]
    rcases faults with _ | ⟨f, fs⟩
    · exact ih _ hstep
    · cases f
      · exact ih _ hstep
      · exact h

/-- C9, `Inherit` is never persisted: if no stored rule has the value `Inherit`
before a call of `GrantByResource`, `Grant` or `Delete`, none has it after the
call, whatever the arguments are (rules with the value `Inherit` among them) and
whether the call succeeds or fails. -/
theorem inherit_never_persisted (r : resources)
    (h : ∀ x ∈ r.db.sys_rules, x.Value ≠ Access.Inherit)
    (roleID : Nat) (resource : String) (operations : List String) (value : Access)
    (rules : List Rule) :
    (∀ x ∈ (r.GrantByResource roleID resource operations value).2.sys_rules,
      x.Value ≠ Access.Inherit) ∧
    (∀ x ∈ (r.Grant roleID rules).2.sys_rules, x.Value ≠ Access.Inherit) ∧
    (∀ x ∈ (r.Delete roleID).2.sys_rules, x.Value ≠ Access.Inherit) := by
  have key : ∀ rs : List Rule, ∀ x ∈ (r.Grant roleID rs).2.sys_rules,
      x.Value ≠ Access.Inherit := by
    intro rs x hx
    unfold resources.Grant at hx
    rcases Transaction_sys_rules_cases r.db
        (fun db => resources.Grant.loop roleID rs db) with h' | h'
    · rw [h'] at hx
      exact h x hx
    · rw [h'] at hx
      exact Grant_loop_no_inherit roleID rs r.db h x hx
  refine ⟨?_, key rules, ?_⟩
  · rw [GrantByResource_eq_Grant]
    exact key _
  · intro x hx
    rcases r with ⟨ctx, ⟨rows, members, faults⟩⟩
    rcases faults with _ | ⟨f, fs⟩
    · simp only [resources.Delete, DB.Exec, DB.exec, List.mem_filter] at hx
      exact h x hx.1
    · cases f
      · simp only [resources.Delete, DB.Exec, DB.exec, List.mem_filter] at hx
        exact h x hx.1
      · simp only [resources.Delete, DB.Exec, DB.exec] at hx
        exact h x hx

/-- Witness of C9: a grant of `Inherit`, a rule list that holds `Inherit` rules,
and a delete, on a store without `Inherit` rules. -/
theorem inherit_never_persisted_witness :
    (∀ x ∈ (scenarioGrant.GrantByResource 3 "ns:42" ["read", "update"]
        Access.Inherit).2.sys_rules, x.Value ≠ Access.Inherit) ∧
    (∀ x ∈ (scenarioGrant.Grant 3 [⟨0, "ns:42", "read", Access.Inherit⟩,
        ⟨3, "ns:43", "read", Access.Allow⟩, ⟨3, "ns:44", "read", Access.Inherit⟩]).2.sys_rules,
      x.Value ≠ Access.Inherit) ∧
    (∀ x ∈ (scenarioGrant.Delete 3).2.sys_rules, x.Value ≠ Access.Inherit) :=
  inherit_never_persisted scenarioGrant (by decide) 3 "ns:42" ["read", "update"]
    Access.Inherit [⟨0, "ns:42", "read", Access.Inherit⟩,
      ⟨3, "ns:43", "read", Access.Allow⟩, ⟨3, "ns:44", "read", Access.Inherit⟩]

/-! ## The grant manager: the role of a rule list -/

theorem Grant_loop_map_role (roleID : Nat) :
    ∀ (rules : List Rule) (db : DB),
      resources.Grant.loop roleID rules db
        = resources.Grant.loop roleID (rules.map fun x => { x with RoleID := roleID }) db := by
  intro rules
  induction rules with
  | nil => intro db; rfl
  | cons rule rules ih =>
    intro db
    rw [List.map_cons, Grant_loop_cons, Grant_loop_cons]
    have happly : ∀ rows, applyRule roleID { rule with RoleID := roleID } rows
        = applyRule roleID rule rows := fun rows => rfl
    simp only [happly, ← ih]

/-- C10, `Grant` forces the role: `Grant(roleID, rules)` does what it does for the
same rules with `RoleID` set to `roleID`, so the role a rule carries is ignored;
the rules of every other role are after the call the ones stored before,
unchanged and in the same order; and after a successful call the last rule of
the list for a resource and operation decides the key `(roleID, resource,
operation)`: no rule is stored under it when the value is `Inherit`, otherwise
exactly the rule itself under the role `roleID`. -/
theorem Grant_forces_role (r : resources) (roleID : Nat) (rules : List Rule) :
    r.Grant roleID rules = r.Grant roleID (rules.map fun x => { x with RoleID := roleID }) ∧
    (r.Grant roleID rules).2.sys_rules.filter (fun x => decide (x.RoleID ≠ roleID))
      = r.db.sys_rules.filter (fun x => decide (x.RoleID ≠ roleID)) ∧
    (∀ (pre post : List Rule) (x : Rule), rules = pre ++ x :: post →
      (∀ y ∈ post, ¬(y.Resource = x.Resource ∧ y.Operation = x.Operation)) →
      (r.Grant roleID rules).1 = none →
      (r.Grant roleID rules).2.sys_rules.filter
          (fun y => decide (y.RoleID = roleID ∧ y.Resource = x.Resource ∧
            y.Operation = x.Operation))
        = if x.Value = Access.Inherit then [] else [{ x with RoleID := roleID }]) := by
  refine ⟨?_, ?_, ?_⟩
  · unfold resources.Grant
    congr 1
    funext db
    exact Grant_loop_map_role roleID rules db
  · unfold resources.Grant
    rcases Transaction_sys_rules_cases r.db
        (fun db => resources.Grant.loop roleID rules db) with h | h
    · rw [h]
    · rw [h]
      apply Grant_loop_frame
      · intro a b hab
        simp only [Rule.sameKey, Bool.and_eq_true, decide_eq_true_eq] at hab
        rw [hab.1.1]
      · intro y _
        simp
  · intro pre post x hrules hpost hs
    have hfun : (fun y : Rule => decide (y.RoleID = roleID ∧ y.Resource = x.Resource ∧
          y.Operation = x.Operation))
        = fun y => y.sameKey { x with RoleID := roleID } := by
      funext y
      simp [Rule.sameKey, Bool.and_assoc]
    obtain ⟨hs1, hs2⟩ := Transaction_of_ok _ _ hs
    unfold resources.Grant
    rw [hs2, hfun]
    subst hrules
    exact Grant_loop_last_write roleID pre post x r.db hpost hs1

/-- Witness of C10: the rules carry the roles `0` and `9` and are written under
role `3`; the last rule of the list, an `Allow` on `ns:43`, is stored under role
`3`. -/
theorem Grant_forces_role_witness :
    (scenarioGrant.Grant 3
        [⟨0, "ns:42", "read", Access.Inherit⟩, ⟨9, "ns:43", "read", Access.Allow⟩]).2.sys_rules.filter
        (fun y => decide (y.RoleID = 3 ∧ y.Resource = "ns:43" ∧ y.Operation = "read"))
      = [⟨3, "ns:43", "read", Access.Allow⟩] :=
  (Grant_forces_role scenarioGrant 3
      [⟨0, "ns:42", "read", Access.Inherit⟩, ⟨9, "ns:43", "read", Access.Allow⟩]).2.2
    [⟨0, "ns:42", "read", Access.Inherit⟩] [] ⟨9, "ns:43", "read", Access.Allow⟩
    rfl (by decide) (by decide)

/-! ## The grant manager: granting again -/

theorem Grant_loop_rows_of_ok (roleID : Nat) :
    ∀ (rules : List Rule) (db : DB), (resources.Grant.loop roleID rules db).1 = none →
      (resources.Grant.loop roleID rules db).2.sys_rules
        = rules.foldl (fun rows x => applyRule roleID x rows) db.sys_rules := by
  intro rules
  induction rules with
  | nil => intro db _; rfl
  | cons rule rules ih =>
    intro db hs
    rcases db with ⟨rows, members, faults⟩
    rw [Grant_loop_cons] at hs ⊢
    rcases faults with _ | ⟨f, fs⟩
    · exact ih _ hs
    · cases f
      · exact ih _ hs
      · simp at hs

theorem applyRule_eq_append (roleID : Nat) (x : Rule) (rows : List Rule) :
    applyRule roleID x rows
      = (rows.filter fun y => !y.sameKey { x with RoleID := roleID })
        ++ applyRule roleID x [] := by
  rcases x with ⟨rid, res, op, val⟩
  unfold applyRule
  cases val <;> simp

theorem foldl_applyRule_frame (roleID : Nat) (Q : Rule → Bool)
    (hQ : ∀ a b : Rule, a.sameKey b = true → Q a = Q b) :
    ∀ (rules : List Rule) (rows : List Rule),
      (∀ x ∈ rules, Q { x with RoleID := roleID } = false) →
      (rules.foldl (fun rows x => applyRule roleID x rows) rows).filter Q = rows.filter Q := by
  intro rules
  induction rules with
  | nil => intro rows _; rfl
  | cons rule rules ih =>
    intro rows h
    rw [List.foldl_cons, ih _ fun x hx => h x (List.mem_cons_of_mem _ hx)]
    exact filter_applyRule roleID rule rows Q hQ (h rule (List.mem_cons_self _ _))

theorem foldl_applyRule_eq_append (roleID : Nat) :
    ∀ (rules : List Rule) (rows : List Rule),
      rules.foldl (fun rows x => applyRule roleID x rows) rows
        = (rows.filter fun y => !rules.any fun w => y.sameKey { w with RoleID := roleID })
          ++ rules.foldl (fun rows x => applyRule roleID x rows) [] := by
  intro rules
  induction rules with
  | nil => intro rows; simp
  | cons rule rules ih =>
    intro rows
    rw [List.foldl_cons, List.foldl_cons, ih (applyRule roleID rule rows),
      ih (applyRule roleID rule []), applyRule_eq_append roleID rule rows, List.filter_append,
      List.filter_filter, List.append_assoc]
    congr 1
    apply List.filter_congr
    intro y _
    simp [Bool.and_comm]

theorem foldl_applyRule_idem (roleID : Nat) (rules : List Rule) (rows : List Rule) :
    rules.foldl (fun rows x => applyRule roleID x rows)
        (rules.foldl (fun rows x => applyRule roleID x rows) rows)
      = rules.foldl (fun rows x => applyRule roleID x rows) rows := by
  have hQ : ∀ a b : Rule, a.sameKey b = true →
      (!rules.any fun w => a.sameKey { w with RoleID := roleID })
        = !rules.any fun w => b.sameKey { w with RoleID := roleID } := by
    intro a b hab
    have : ∀ w : Rule, a.sameKey { w with RoleID := roleID }
        = b.sameKey { w with RoleID := roleID } := fun w => sameKey_congr _ a b hab
    simp only [this]
  have hW : ∀ x ∈ rules,
      (!rules.any fun w => Rule.sameKey { x with RoleID := roleID } { w with RoleID := roleID })
        = false := by
    intro x hx
    simp only [Bool.not_eq_false_eq_eq_true, Bool.not_eq_eq_eq_not, Bool.not_false,
      List.any_eq_true]
    exact ⟨x, hx, by simp [Rule.sameKey]⟩
  have hwritten : (rules.foldl (fun rows x => applyRule roleID x rows) []).filter
      (fun y => !rules.any fun w => y.sameKey { w with RoleID := roleID }) = [] := by
    rw [foldl_applyRule_frame roleID _ hQ rules [] hW]
    rfl
  rw [foldl_applyRule_eq_append roleID rules
      (rules.foldl (fun rows x => applyRule roleID x rows) rows)]
  conv_lhs => rw [foldl_applyRule_eq_append roleID rules rows]
  rw [List.filter_append, List.filter_filter, hwritten, List.append_nil]
  conv_rhs => rw [foldl_applyRule_eq_append roleID rules rows]
  congr 1
  apply List.filter_congr
  intro y _
  simp

/-- C11, re-grant idempotence: when `GrantByResource` succeeds and is then run
again with the same arguments on the store it left, and succeeds again,
`sys_rules` after the second run is what it was after the first, row for row. -/
theorem GrantByResource_regrant_idempotent (r : resources) (roleID : Nat) (resource : String)
    (operations : List String) (value : Access)
    (h1 : (r.GrantByResource roleID resource operations value).1 = none)
    (h2 : (resources.GrantByResource
            ⟨r.ctx, (r.GrantByResource roleID resource operations value).2⟩
            roleID resource operations value).1 = none) :
    (resources.GrantByResource
        ⟨r.ctx, (r.GrantByResource roleID resource operations value).2⟩
        roleID resource operations value).2.sys_rules
      = (r.GrantByResource roleID resource operations value).2.sys_rules := by
  simp only [GrantByResource_eq_Grant] at h1 h2 ⊢
  generalize (operations.map fun op => (⟨roleID, resource, op, value⟩ : Rule)) = rules
    at h1 h2 ⊢
  obtain ⟨h1a, h1b⟩ := Transaction_of_ok _ _ h1
  have hrows1 := Grant_loop_rows_of_ok roleID rules r.db h1a
  unfold resources.Grant at h2 ⊢
  obtain ⟨h2a, h2b⟩ := Transaction_of_ok _ _ h2
  have hrows2 := Grant_loop_rows_of_ok roleID rules _ h2a
  rw [h2b, hrows2]
  simp only [h1b, hrows1]
  exact foldl_applyRule_idem roleID rules r.db.sys_rules

/-- Witness of C11: the batch of the spec, granted twice. -/
theorem GrantByResource_regrant_idempotent_witness :
    (resources.GrantByResource
        ⟨scenarioGrant.ctx,
          (scenarioGrant.GrantByResource 3 "ns:42" ["read", "update"] Access.Allow).2⟩
        3 "ns:42" ["read", "update"] Access.Allow).2.sys_rules
      = (scenarioGrant.GrantByResource 3 "ns:42" ["read", "update"] Access.Allow).2.sys_rules :=
  GrantByResource_regrant_idempotent scenarioGrant 3 "ns:42" ["read", "update"] Access.Allow
    (by decide) (by decide)

/-! ## The resolver: no validation -/

theorem IsAllowed_eq (r : resources) (resource operation : String) :
    r.IsAllowed resource operation =
      (match r.db.exec.1 with
        | some _ => Access.Deny
        | none =>
          foldAccess (((r.db.joinMembers r.identity).filter
            (if containsStar resource then whereLike (replaceStar resource) operation
              else whereEq resource operation)).map Rule.Value),
       r.db.exec.2) := by
  rcases r with ⟨ctx, ⟨rows, members, faults⟩⟩
  cases hs : containsStar resource <;> rcases faults with _ | ⟨f, fs⟩
  · simp [resources.IsAllowed, hs, resources.checkAccess, DB.Select, DB.exec]
  · cases f <;> simp [resources.IsAllowed, hs, resources.checkAccess, DB.Select, DB.exec]
  · simp [resources.IsAllowed, hs, resources.checkAccessMulti, DB.Select, DB.exec]
  · cases f <;> simp [resources.IsAllowed, hs, resources.checkAccessMulti, DB.Select, DB.exec]

/-- Counterexample to C12 as stated: the empty resource and operation, and a
resource with two `*`, are not rejected. The call uses up the statement outcome
the database had ready, and the verdict is the value of the stored rule the
query finds; on the same store without rules it is `Inherit`. -/
theorem IsAllowed_validation_counterexample :
    (scenarioMalformed.IsAllowed "" "").1 = Access.Allow ∧
    (scenarioMalformed.IsAllowed "" "").2.faults = [] ∧
    scenarioMalformed.db.faults = [none] ∧
    (resources.IsAllowed
      { scenarioMalformed with db := { scenarioMalformed.db with sys_rules := [] } } "" "").1
      = Access.Inherit ∧
    (scenarioMalformed.IsAllowed "a*b*" "read").1 = Access.Deny ∧
    (scenarioMalformed.IsAllowed "a*b*" "read").2.faults = [] :=
  ⟨by decide, by decide, by decide, by decide, by decide, by decide⟩

/-- C12 as amended: `IsAllowed` validates nothing. For every resource and
operation, the empty string and resources with several `*` included, the call
sends one query to the store, the exact one for a resource without `*` and the
`LIKE` one otherwise, and returns `Deny` when the query fails and the fold of
the returned values when it succeeds. -/
theorem IsAllowed_always_queries (r : resources) (resource operation : String) :
    (r.IsAllowed resource operation).2 = r.db.exec.2 ∧
    (r.IsAllowed resource operation).1 =
      match r.db.exec.1 with
      | some _ => Access.Deny
      | none =>
        foldAccess (((r.db.joinMembers r.identity).filter
          (if containsStar resource then whereLike (replaceStar resource) operation
            else whereEq resource operation)).map Rule.Value) := by
  rw [IsAllowed_eq]
  exact ⟨rfl, rfl⟩

/-! ## The pattern mode: what `LIKE` is given -/

theorem sqlLike_cons (c : Char) (p s : List Char) :
    sqlLike (c :: p) s =
      if c = '%' then s.tails.any (fun t => sqlLike p t)
      else if c = '_' then
        match s with
        | [] => false
        | _ :: t => sqlLike p t
      else if c = '\\' then
        match p, s with
        | [], [d] => decide (d = '\\')
        | [], _ => false
        | _ :: _, [] => false
        | e :: q, d :: t => decide (d = e) && sqlLike q t
      else
        match s with
        | [] => false
        | d :: t => decide (d = c) && sqlLike p t := by
  rcases p with _ | ⟨e, q⟩ <;> rcases s with _ | ⟨d, _ | ⟨d2, t⟩⟩ <;> rfl

theorem sqlLike_nil (s : List Char) : sqlLike [] s = s.isEmpty := by
  cases s <;> rfl

theorem sqlLike_percent (s : List Char) : sqlLike ['%'] s = true := by
  have hmem : ([] : List Char) ∈ s.tails := by simp
  rw [sqlLike_cons, if_pos rfl]
  exact List.any_eq_true.mpr ⟨[], hmem, by rw [sqlLike_nil]; rfl⟩

theorem sqlLike_literal :
    ∀ (P s : List Char), (∀ c ∈ P, c ≠ '%' ∧ c ≠ '_' ∧ c ≠ '\\') →
      sqlLike (P ++ ['%']) s = P.isPrefixOf s := by
  intro P
  induction P with
  | nil => intro s _; simpa using sqlLike_percent s
  | cons c p ih =>
    intro s h
    obtain ⟨h1, h2, h3⟩ := h c (List.mem_cons_self _ _)
    have hp : ∀ d ∈ p, d ≠ '%' ∧ d ≠ '_' ∧ d ≠ '\\' :=
      fun d hd => h d (List.mem_cons_of_mem _ hd)
    rw [List.cons_append, sqlLike_cons, if_neg h1, if_neg h2, if_neg h3]
    cases s with
    | nil => rfl
    | cons d t =>
      simp only [ih t hp, List.isPrefixOf_cons₂]
      by_cases hcd : d = c
      · simp [hcd]
      · have : c ≠ d := fun h => hcd h.symm
        simp [hcd, this]

theorem replaceStar_append_star (P : String) (hP : ∀ c ∈ P.data, c ≠ '*') :
    (replaceStar (P ++ "*")).data = P.data ++ ['%'] := by
  have hmap : P.data.map (fun c => if c = '*' then '%' else c) = P.data := by
    conv_rhs => rw [← List.map_id P.data]
    apply List.map_congr_left
    intro c hc
    simp [hP c hc]
  simp [replaceStar, String.data_append, hmap]

/-- Counterexample to C13 as stated: `ns_` and `%:1` hold no `*` and are not
prefixes of the stored resource `ns:1`, yet the queries for `ns_*` and `%:1*`
return the rule stored on `ns:1`, and `IsAllowed` returns its `Deny`: `_` and
`%` in the queried resource act as pattern characters of `LIKE`. -/
theorem IsAllowed_pattern_counterexample :
    containsStar "ns_" = false ∧
    "ns_".data.isPrefixOf "ns:1".data = false ∧
    (scenarioLike.db.Select scenarioLike.identity (whereLike (replaceStar "ns_*") "read")).1
      = Except.ok [Access.Deny] ∧
    (scenarioLike.IsAllowed "ns_*" "read").1 = Access.Deny ∧
    containsStar "%:1" = false ∧
    "%:1".data.isPrefixOf "ns:1".data = false ∧
    (scenarioLike.IsAllowed "%:1*" "read").1 = Access.Deny :=
  ⟨by decide, by decide, rfl, by decide, by decide, by decide, by decide⟩

/-- C13 as amended: for a queried resource `P` followed by one trailing `*`,
where `P` holds none of `*`, `%`, `_` and the backslash, the query of `IsAllowed`
returns exactly the values of the rules of the roles of the identity, with the
queried operation, whose stored resource has `P` as a literal prefix, and the
verdict is `Deny` on a query error and the fold of those values otherwise. -/
theorem IsAllowed_pattern_literal (r : resources) (P operation : String)
    (hP : ∀ c ∈ P.data, c ≠ '*' ∧ c ≠ '%' ∧ c ≠ '_' ∧ c ≠ '\\') :
    containsStar (P ++ "*") = true ∧
    r.db.Select r.identity (whereLike (replaceStar (P ++ "*")) operation)
      = r.db.Select r.identity
          (fun x => P.data.isPrefixOf x.Resource.data && decide (x.Operation = operation)) ∧
    (r.IsAllowed (P ++ "*") operation).1 =
      match r.db.exec.1 with
      | some _ => Access.Deny
      | none =>
        foldAccess (((r.db.joinMembers r.identity).filter
          (fun x => P.data.isPrefixOf x.Resource.data && decide (x.Operation = operation))).map
            Rule.Value) := by
  have hwhere : whereLike (replaceStar (P ++ "*")) operation
      = fun x => P.data.isPrefixOf x.Resource.data && decide (x.Operation = operation) := by
    funext x
    unfold whereLike
    rw [replaceStar_append_star P fun c hc => (hP c hc).1,
      sqlLike_literal P.data x.Resource.data fun c hc => (hP c hc).2]
  refine ⟨containsStar_append_star P, by rw [hwhere], ?_⟩
  rw [IsAllowed_eq, containsStar_append_star, if_pos rfl, hwhere]

/-- Witness of C13 as amended: the query for `ns:*` finds the rule on `ns:1`. -/
theorem IsAllowed_pattern_literal_witness :
    (scenarioLike.IsAllowed ("ns:" ++ "*") "read").1 = Access.Deny :=
  (IsAllowed_pattern_literal scenarioLike "ns:" "read" (by decide)).2.2.trans (by decide)

/-! ## The fold depends on which values occur -/

theorem foldAccess_eq_ite (vals : List Access) :
    foldAccess vals =
      if Access.Deny ∈ vals then Access.Deny
      else if Access.Allow ∈ vals then Access.Allow
      else Access.Inherit := by
  by_cases hd : Access.Deny ∈ vals
  · rw [foldAccess_of_deny_mem hd, if_pos hd]
  · by_cases ha : Access.Allow ∈ vals
    · rw [foldAccess_of_allow_mem ha hd, if_neg hd, if_pos ha]
    · rw [if_neg hd, if_neg ha]
      have h1 : vals.any (fun val => decide (val = Access.Deny)) = false := by
        rw [Bool.eq_false_iff]
        intro hany
        obtain ⟨v, hv, hv'⟩ := List.any_eq_true.mp hany
        exact hd ((of_decide_eq_true hv') ▸ hv)
      have h2 : vals.any (fun val => decide (val = Access.Allow)) = false := by
        rw [Bool.eq_false_iff]
        intro hany
        obtain ⟨v, hv, hv'⟩ := List.any_eq_true.mp hany
        exact ha ((of_decide_eq_true hv') ▸ hv)
      simp [foldAccess, h1, h2]

theorem foldAccess_congr {a b : List Access} (h : ∀ v, v ∈ a ↔ v ∈ b) :
    foldAccess a = foldAccess b := by
  rw [foldAccess_eq_ite, foldAccess_eq_ite]
  simp only [h]

/-- C14, only the rules of the roles of the identity for the queried resource
and operation count: for a resource without `*`, two rule tables that hold the
same rules among those whose role the identity is a member of and whose resource
and operation are the queried ones give the same verdict of `IsAllowed`, whatever
else they hold (same membership table, same outcome of the query). -/
theorem IsAllowed_only_own_rules (ctx : Context) (rules1 rules2 : List Rule)
    (members : List RoleMember) (faults : List (Option Error))
    (resource operation : String)
    (hR : containsStar resource = false)
    (hagree : ∀ x : Rule,
      (∃ m ∈ members, m.rel_role = x.RoleID ∧ m.rel_user = ctx.identity) →
      x.Resource = resource → x.Operation = operation → (x ∈ rules1 ↔ x ∈ rules2)) :
    (resources.IsAllowed ⟨ctx, ⟨rules1, members, faults⟩⟩ resource operation).1
      = (resources.IsAllowed ⟨ctx, ⟨rules2, members, faults⟩⟩ resource operation).1 := by
  have hvals : ∀ v : Access,
      v ∈ (((DB.mk rules1 members faults).joinMembers ctx.identity).filter
            (whereEq resource operation)).map Rule.Value ↔
      v ∈ (((DB.mk rules2 members faults).joinMembers ctx.identity).filter
            (whereEq resource operation)).map Rule.Value := by
    intro v
    simp only [List.mem_map, List.mem_filter, mem_joinMembers, whereEq, Bool.and_eq_true,
      decide_eq_true_eq]
    constructor
    · rintro ⟨x, ⟨⟨hx, hm⟩, hres, hop⟩, rfl⟩
      exact ⟨x, ⟨⟨(hagree x hm hres hop).mp hx, hm⟩, hres, hop⟩, rfl⟩
    · rintro ⟨x, ⟨⟨hx, hm⟩, hres, hop⟩, rfl⟩
      exact ⟨x, ⟨⟨(hagree x hm hres hop).mpr hx, hm⟩, hres, hop⟩, rfl⟩
  rw [IsAllowed_eq, IsAllowed_eq]
  simp only [hR, resources.identity, Bool.false_eq_true, if_false]
  rcases faults with _ | ⟨f, fs⟩
  · exact foldAccess_congr hvals
  · cases f
    · exact foldAccess_congr hvals
    · rfl

/-- Witness of C14: the scenario of the spec, and the same with a rule of a role
the user is not in, a rule for another operation and a rule for another
resource added. -/
theorem IsAllowed_only_own_rules_witness :
    (scenarioAllow.IsAllowed "compose:record:42" "read").1
      = (resources.IsAllowed ⟨⟨7⟩,
          ⟨[⟨12, "compose:record:42", "read", Access.Deny⟩,
            ⟨10, "compose:record:42", "read", Access.Allow⟩,
            ⟨10, "compose:record:42", "update", Access.Deny⟩,
            ⟨11, "compose:record:43", "read", Access.Deny⟩],
           [⟨10, 7⟩, ⟨11, 7⟩], []⟩⟩ "compose:record:42" "read").1 :=
  IsAllowed_only_own_rules ⟨7⟩ [⟨10, "compose:record:42", "read", Access.Allow⟩]
    [⟨12, "compose:record:42", "read", Access.Deny⟩,
      ⟨10, "compose:record:42", "read", Access.Allow⟩,
      ⟨10, "compose:record:42", "update", Access.Deny⟩,
      ⟨11, "compose:record:43", "read", Access.Deny⟩]
    [⟨10, 7⟩, ⟨11, 7⟩] [] "compose:record:42" "read" (by decide)
    (by
      rintro ⟨rid, res, op, val⟩ ⟨m, hm, hrole, _⟩ hres hop
      simp only at hrole hres hop
      subst hres hop
      have hrid : rid = 10 ∨ rid = 11 := by
        simp only [List.mem_cons, List.mem_singleton, List.not_mem_nil, or_false] at hm
        rcases hm with rfl | rfl
        · exact Or.inl hrole.symm
        · exact Or.inr hrole.symm
      rcases hrid with rfl | rfl <;> simp)

/-- C15, order independence: two successful query results that are
permutations of one another fold to the same verdict, and the verdict is the
greatest of the returned values in the order `Deny > Allow > Inherit`: no
returned value ranks above it, it is one of the returned values when there are
any, and it is `Inherit` for the empty result. The verdict of `IsAllowed` is
this fold of the result of its query, in both modes. -/
theorem foldAccess_order_independent (vals1 vals2 : List Access)
    (hperm : vals1.Perm vals2) :
    foldAccess vals1 = foldAccess vals2 ∧
    (∀ v ∈ vals1, v.rank ≤ (foldAccess vals1).rank) ∧
    (vals1 ≠ [] → foldAccess vals1 ∈ vals1) ∧
    foldAccess [] = Access.Inherit ∧
    (∀ (r : resources) (resource operation : String),
      ((containsStar resource = false ∧
          (r.db.Select r.identity (whereEq resource operation)).1 = Except.ok vals1) ∨
        (containsStar resource = true ∧
          (r.db.Select r.identity (whereLike (replaceStar resource) operation)).1
            = Except.ok vals1)) →
      (r.IsAllowed resource operation).1 = foldAccess vals2) := by
  have heq : foldAccess vals1 = foldAccess vals2 :=
    foldAccess_congr fun v => hperm.mem_iff
  refine ⟨heq, ?_, ?_, foldAccess_nil, ?_⟩
  · intro v hv
    rw [foldAccess_eq_ite]
    by_cases hd : Access.Deny ∈ vals1
    · rw [if_pos hd]
      cases v <;> decide
    · rw [if_neg hd]
      by_cases ha : Access.Allow ∈ vals1
      · rw [if_pos ha]
        cases v
        · exact absurd hv hd
        · decide
        · decide
      · rw [if_neg ha]
        cases v
        · exact absurd hv hd
        · exact absurd hv ha
        · decide
  · intro hne
    rw [foldAccess_eq_ite]
    by_cases hd : Access.Deny ∈ vals1
    · rw [if_pos hd]; exact hd
    · rw [if_neg hd]
      by_cases ha : Access.Allow ∈ vals1
      · rw [if_pos ha]; exact ha
      · rw [if_neg ha]
        obtain ⟨v, hv⟩ := List.exists_mem_of_ne_nil vals1 hne
        cases v
        · exact absurd hv hd
        · exact absurd hv ha
        · exact hv
  · rintro r resource operation (⟨hs, hq⟩ | ⟨hs, hq⟩)
    · rw [IsAllowed_of_containsStar_eq_false r hs, checkAccess_fst, hq, ← heq]
    · rw [IsAllowed_of_containsStar_eq_true r hs, checkAccessMulti_fst, hq, ← heq]

/-- Witness of C15: the result of the scenario of the spec in its two orders. -/
theorem foldAccess_order_independent_witness :
    foldAccess [Access.Allow, Access.Deny] = foldAccess [Access.Deny, Access.Allow] ∧
    (scenarioDeny.IsAllowed "compose:record:42" "read").1
      = foldAccess [Access.Deny, Access.Allow] :=
  ⟨(foldAccess_order_independent [Access.Allow, Access.Deny] [Access.Deny, Access.Allow]
      (List.Perm.swap _ _ _)).1,
   (foldAccess_order_independent [Access.Allow, Access.Deny] [Access.Deny, Access.Allow]
      (List.Perm.swap _ _ _)).2.2.2.2 scenarioDeny "compose:record:42" "read"
      (Or.inl ⟨by decide, rfl⟩)⟩

end rules



namespace codegen

/-! ## The check of the resource name -/

theorem resourceNames_of_length_succ (serviceStr resName : String)
    (hne : resName ≠ serviceStr)
    (hlen : resName.length = serviceStr.length + 1) :
    resourceNames serviceStr resName = ResourceNames.panicOutOfRange := by
  have h1 : ¬ resName.length ≤ serviceStr.length := by omega
  have h2 : ¬ serviceStr.length + 2 ≤ resName.length := by omega
  simp [resourceNames, hne, h1, sliceTo, h2]

theorem resourceNames_of_longer (serviceStr resName : String)
    (hne : resName ≠ serviceStr)
    (hlen : serviceStr.length + 2 ≤ resName.length) :
    resourceNames serviceStr resName =
      ResourceNames.names
        (String.mk (camelCase (split ':' (resName.data.drop (serviceStr.length + 1)))))
        (String.mk (replaceAll
          (replaceAll (resName.data.drop (serviceStr.length + 1)) ':' '_') '-' '_')) := by
  have h1 : ¬ resName.length ≤ serviceStr.length := by omega
  have h3 : serviceStr.length + 1 ≤ resName.length := by omega
  have hhead : resName.data.take (serviceStr.length + 2) ≠ serviceStr.data ++ [':'] := by
    intro h
    have := congrArg List.length h
    simp only [List.length_take, List.length_append, List.length_singleton,
      String.length_data] at this
    omega
  simp [resourceNames, hne, h1, sliceTo, sliceFrom, hlen, h3, hhead]

/-- C16, the check of the resource prefix, evaluated on the code: for the
service `system`, the name `compose:module` does not begin with `system:` and is
not rejected but goes on to the derivation of identifier and file name, the
names `system:` and `systems`, one byte longer than the service name, end in a
slice bound out of range, and only a name that is not longer than the service
name is rejected. -/
theorem resourceNames_prefix_check_fails :
    "system:".data.isPrefixOf "compose:module".data = false ∧
    resourceNames "system" "compose:module" = ResourceNames.names "Module" "_module" ∧
    resourceNames "system" "system:" = ResourceNames.panicOutOfRange ∧
    resourceNames "system" "systems" = ResourceNames.panicOutOfRange ∧
    resourceNames "system" "sys" = ResourceNames.rejected "sys" ∧
    resourceNames "system" "system:user" = ResourceNames.names "user" "user" := by
  decide

end codegen

namespace service

/-! ## The update with an avatar -/

/-- C17, `UpdateWithAvatar` against `Update`, evaluated on the code:
`UpdateWithAvatar` is `Create` for every service, store and user. On the sample
service, for a user with `ID` zero `Update` returns `ErrInvalidID` and leaves
the store as it is while `UpdateWithAvatar` returns a new user `6` without an
error and adds it to the store; for the stored user `5` `Update` changes the
row of user `5` while `UpdateWithAvatar` leaves it and adds a user `6`. -/
theorem UpdateWithAvatar_is_Create :
    (∀ (σ : Type) (svc : user σ) (st : σ) (mod : User) (avatar : List Nat),
      svc.UpdateWithAvatar st mod avatar = svc.Create st mod) ∧
    sampleService.Update sampleUsers ⟨0, "bob@example.org", "bob", "Bob", "bob", ""⟩
      = ((none, some ErrInvalidID), sampleUsers) ∧
    sampleService.UpdateWithAvatar sampleUsers ⟨0, "bob@example.org", "bob", "Bob", "bob", ""⟩ []
      = ((some ⟨6, "bob@example.org", "bob", "Bob", "bob", ""⟩, none),
         sampleUsers ++ [⟨6, "bob@example.org", "bob", "Bob", "bob", ""⟩]) ∧
    sampleService.Update sampleUsers ⟨5, "ann@example.org", "ann", "Ann B", "ann", ""⟩
      = ((some ⟨5, "ann@example.org", "ann", "Ann B", "ann", ""⟩, none),
         [⟨1, "admin@example.org", "admin", "Admin", "admin", ""⟩,
          ⟨5, "ann@example.org", "ann", "Ann B", "ann", ""⟩]) ∧
    sampleService.UpdateWithAvatar sampleUsers ⟨5, "ann@example.org", "ann", "Ann B", "ann", ""⟩ []
      = ((some ⟨6, "ann@example.org", "ann", "Ann B", "ann", ""⟩, none),
         sampleUsers ++ [⟨6, "ann@example.org", "ann", "Ann B", "ann", ""⟩]) :=
  ⟨fun _ _ _ _ _ => rfl, by decide, by decide, by decide, by decide⟩

end service
